import Mathlib

/-!
Verification of the M4A container reader/writer (`mutagen/m4a.py`).

The development shallowly embeds the module's data model and algorithms:

* `parseC` / `parseAtom` — the box ("atom") reader `Atom.__init__` and the
  child/top-level loops (`Atoms.__init__`); the cursor-driven loops are
  modelled with an explicit fuel argument so that non-termination of the
  source loops is observable as fuel exhaustion (`Err.fuelOut`).
* `atomGet` / `atomsGet` — dotted-path lookup (`Atom.__getitem__`,
  `Atoms.__getitem__`).
* the tag codec — `M4ATags.__parse_*` / `M4ATags.__render_*` and the
  dispatch table `M4ATags.atoms`, over an ordered key→value tag mapping.
* `m4aInfoData` — the duration computation of `M4AInfo.__init__`,
  with Python float division modelled as exact rational division.

Python byte strings are `List Nat` (each entry a byte value); Python
unicode strings are `List Nat` (each entry a codepoint).  Fallible
operations return `Except Err`, with one `Err` constructor per Python
exception class involved (`struct.error` → `structError`, `KeyError` →
`keyError`, and so on; `KeyError` is a subclass of `LookupError` in
Python).  `Err.metadataError` and `Err.streamInfoError` mirror the
classes `M4AMetadataError` and `M4AStreamInfoError` declared at the top
of the module.
-/

set_option maxRecDepth 8192

namespace M4A

abbrev Bytes := List Nat

/-- Big-endian value of a byte string (used for `>I`, `>H`, `>Q` unpacking). -/
def beVal (l : Bytes) : Nat := l.foldl (fun a x => a * 256 + x) 0

/-- Bytes obtained by a `read(n)` at absolute position `pos` (short reads allowed,
as for Python file objects). -/
def readBytes (b : Bytes) (pos n : Nat) : Bytes := (b.drop pos).take n

/-- Python slice `d[i:j]` for `0 ≤ i ≤ j`. -/
def sliceBytes (d : Bytes) (i j : Nat) : Bytes := (d.take j).drop i

/-- The 32-bit big-endian value at `pos` (callers establish that 4 bytes exist). -/
def u32at (b : Bytes) (pos : Nat) : Nat := beVal (readBytes b pos 4)

/-- The 64-bit big-endian value at `pos`. -/
def u64at (b : Bytes) (pos : Nat) : Nat := beVal (readBytes b pos 8)

/-- One constructor per Python exception class reachable from the module.
`fuelOut` marks exhaustion of the explicit fuel that stands in for the
source's unbounded cursor loops (i.e. non-termination when no fuel
suffices). -/
inductive Err where
  | fuelOut | formatError | structError | keyError | typeError
  | valueError | indexError | zeroDivisionError | metadataError | streamInfoError
deriving DecidableEq

/-- One box of the container tree: `Atom.offset`, `Atom.length`, `Atom.name`,
and `children` (`None` for a leaf, a list for a container kind), as set up by
`Atom.__init__`. -/
inductive Atom where
  | mk (offset length : Nat) (name : Bytes) (children : Option (List Atom))

def Atom.offset : Atom → Nat | .mk o _ _ _ => o
def Atom.length : Atom → Nat | .mk _ l _ _ => l
def Atom.name : Atom → Bytes | .mk _ _ n _ => n
def Atom.children : Atom → Option (List Atom) | .mk _ _ _ c => c

def moovN : Bytes := [109, 111, 111, 118]
def udtaN : Bytes := [117, 100, 116, 97]
def trakN : Bytes := [116, 114, 97, 107]
def mdiaN : Bytes := [109, 100, 105, 97]
def metaN : Bytes := [109, 101, 116, 97]
def ilstN : Bytes := [105, 108, 115, 116]
def mdhdN : Bytes := [109, 100, 104, 100]

/-- The fixed container-kind list `_CONTAINERS`. -/
def _CONTAINERS : List Bytes := [moovN, udtaN, trakN, mdiaN, metaN, ilstN]

/-- `_SKIP_SIZE.get(self.name, 0)`: the `meta` container skips 4 bytes of
version/flags before its children. -/
def skipSize (n : Bytes) : Nat := if n = metaN then 4 else 0

/-- The child-parsing loop of `Atom.__init__` (`while fileobj.tell() < self.offset
+ self.length: self.children.append(Atom(fileobj))`), which is also the shape of
the top-level loop of `Atoms.__init__`.  At each iteration it performs the body
of `Atom.__init__`: read an 8-byte header (a big-endian 32-bit length and a
4-byte code; a short read makes `struct.unpack` raise `struct.error`); raise
on length 1; for a container kind, skip `skipSize` bytes and parse children
until the cursor reaches `offset + length`; for a leaf, seek to
`offset + length`.  Fuel decreases at every iteration/nesting step. -/
def parseC : Nat → Bytes → Nat → Nat → Except Err (List Atom × Nat)
  | 0, _, _, _ => .error .fuelOut
  | fuel+1, b, pos, stop =>
    if pos < stop then
      if pos + 8 ≤ b.length then
        let len := u32at b pos
        let name := readBytes b (pos+4) 4
        if len = 1 then .error .formatError
        else if name ∈ _CONTAINERS then
          match parseC fuel b (pos + 8 + skipSize name) (pos + len) with
          | .ok (kids, p1) =>
            match parseC fuel b p1 stop with
            | .ok (as, p2) => .ok (Atom.mk pos len name (some kids) :: as, p2)
            | .error e => .error e
          | .error e => .error e
        else
          match parseC fuel b (pos + len) stop with
          | .ok (as, p2) => .ok (Atom.mk pos len name none :: as, p2)
          | .error e => .error e
      else .error .structError
    else .ok ([], pos)

/-- `Atom.__init__` for a single box at `pos`: returns the atom and the cursor
position after construction.  Nested children are parsed with `parseC fuel`. -/
def parseAtom (fuel : Nat) (b : Bytes) (pos : Nat) : Except Err (Atom × Nat) :=
  if pos + 8 ≤ b.length then
    let len := u32at b pos
    let name := readBytes b (pos+4) 4
    if len = 1 then .error .formatError
    else if name ∈ _CONTAINERS then
      match parseC fuel b (pos + 8 + skipSize name) (pos + len) with
      | .ok (kids, p1) => .ok (Atom.mk pos len name (some kids), p1)
      | .error e => .error e
    else .ok (Atom.mk pos len name none, pos + len)
  else .error .structError

/-- `Atoms.__init__`: seek to the end to learn the total length, rewind, and
parse top-level atoms until the cursor reaches the end. -/
def parseAtoms (fuel : Nat) (b : Bytes) : Except Err (List Atom) :=
  match parseC fuel b 0 b.length with
  | .ok (atoms, _) => .ok atoms
  | .error e => .error e

/-- `parseC` steps through `parseAtom` one box at a time. -/
theorem parseC_succ (fuel : Nat) (b : Bytes) (pos stop : Nat) :
    parseC (fuel+1) b pos stop =
      if pos < stop then
        match parseAtom fuel b pos with
        | .ok (a, p1) =>
          match parseC fuel b p1 stop with
          | .ok (as, p2) => .ok (a :: as, p2)
          | .error e => .error e
        | .error e => .error e
      else .ok ([], pos) := by
  simp only [parseC, parseAtom]
  by_cases h1 : pos < stop <;> simp [h1]
  by_cases h2 : pos + 8 ≤ b.length <;> simp [h2]
  by_cases h3 : u32at b pos = 1 <;> simp [h3]
  by_cases h4 : readBytes b (pos+4) 4 ∈ _CONTAINERS <;> simp [h4]
  cases parseC fuel b (pos + 8 + skipSize (readBytes b (pos+4) 4)) (pos + u32at b pos) <;> simp

/-- `Atom.__getitem__`: resolve a remaining path inside an atom; an empty path
returns the atom itself; a leaf raises `KeyError` on a non-empty path; otherwise
the first child whose name matches the head is recursed into, and a missing
match raises `KeyError`. -/
def atomGet (a : Atom) : List Bytes → Except Err Atom
  | [] => .ok a
  | n :: rest =>
    match a.children with
    | none => .error .keyError
    | some kids =>
      match kids.find? (fun c => c.name = n) with
      | some c => atomGet c rest
      | none => .error .keyError

/-- `Atoms.__getitem__`: match the first top-level atom against the first path
segment and recurse; raise `KeyError` when no top-level atom matches. -/
def atomsGet (atoms : List Atom) (names : List Bytes) : Except Err Atom :=
  match names with
  | [] => .error .indexError
  | n :: rest =>
    match atoms.find? (fun c => c.name = n) with
    | some c => atomGet c rest
    | none => .error .keyError

/-! ### The tag codec (`M4ATags`) -/

def dashK : Bytes := [45, 45, 45, 45]
def trknK : Bytes := [116, 114, 107, 110]
def diskK : Bytes := [100, 105, 115, 107]
def gnreK : Bytes := [103, 110, 114, 101]
def tmpoK : Bytes := [116, 109, 112, 111]
def cpilK : Bytes := [99, 112, 105, 108]
def covrK : Bytes := [99, 111, 118, 114]

/-- The textual genre key `"\xa9gen"`. -/
def genK : Bytes := [169, 103, 101, 110]

def dataName : Bytes := [100, 97, 116, 97]
def meanName : Bytes := [109, 101, 97, 110]
def nameName : Bytes := [110, 97, 109, 101]

/-- A tag value, one constructor per value shape the codec produces or
consumes: a unicode text (codepoints), a pair of ints (track/disc), an int
(tempo), a boolean (compilation), a byte string (cover art and free-form
data). -/
inductive TagValue where
  | text (s : List Nat)
  | pair (a b : Nat)
  | num (n : Nat)
  | bool (b : Bool)
  | bytes (d : Bytes)
deriving DecidableEq

/-- Modelled from the spec: the tag mapping is an ordered key→value
associative structure (§3 "ordered key→value associative structure"); the
`Metadata`/`DictMixin` base classes are not under `src/`.  Keys are Python
byte strings. -/
abbrev TagMap := List (Bytes × TagValue)

/-- Modelled from the spec: mapping assignment `self[key] = value` overwrites
an existing key in place and otherwise appends, preserving order. -/
def mapSet (m : TagMap) (k : Bytes) (v : TagValue) : TagMap :=
  if m.any (fun e => e.1 = k) then
    m.map (fun e => if e.1 = k then (k, v) else e)
  else m ++ [(k, v)]

/-- Modelled from the spec: mapping membership `key in self`. -/
def hasKey (m : TagMap) (k : Bytes) : Bool := m.any (fun e => decide (e.1 = k))

/-- Modelled from the spec: `cdata.to_uint_be` is `struct.pack(">I", n)`
(big-endian unsigned 32-bit; out-of-range values raise `struct.error`);
`mutagen._util` is not under `src/`. -/
def to_uint_be (n : Nat) : Except Err Bytes :=
  if n < 4294967296 then .ok [n / 16777216, n / 65536 % 256, n / 256 % 256, n % 256]
  else .error .structError

/-- Modelled from the spec: `cdata.to_ushort_be` is `struct.pack(">H", n)`
("tempo encodes its integer as 2 bytes", unsigned 16-bit per §3). -/
def to_ushort_be (n : Nat) : Except Err Bytes :=
  if n < 65536 then .ok [n / 256, n % 256] else .error .structError

/-- Modelled from the spec: `cdata.uint_be` is `struct.unpack(">I", s)`,
requiring exactly 4 bytes. -/
def uint_be (s : Bytes) : Except Err Nat :=
  if s.length = 4 then .ok (beVal s) else .error .structError

/-- Modelled from the spec: `cdata.short_be` reads a big-endian 16-bit
integer from exactly 2 bytes (unsigned per §4.2: "a big-endian unsigned
16-bit genre index", "bytes 16–18 as a big-endian unsigned 16-bit integer"). -/
def short_be (s : Bytes) : Except Err Nat :=
  if s.length = 2 then .ok (beVal s) else .error .structError

/-- `struct.pack(">4H", ...)`: exactly four unsigned 16-bit fields; any other
argument count raises `struct.error`. -/
def structPack4H (args : List Nat) : Except Err Bytes :=
  if args.length = 4 ∧ ∀ a ∈ args, a < 65536 then
    .ok (args.flatMap (fun a => [a / 256, a % 256]))
  else .error .structError

/-- `M4ATags.__render_data`: wrap `data` in the generic envelope — a
length-prefixed `data` sub-box carrying the 4-byte type flag and a zero
reserved field — then wrap that in a box coded `key`. -/
def render_data (key : Bytes) (flags : Nat) (data : Bytes) : Except Err Bytes := do
  let f ← to_uint_be flags
  let z ← to_uint_be 0
  let d := f ++ z ++ data
  let l1 ← to_uint_be (d.length + 8)
  let d2 := l1 ++ dataName ++ d
  let l2 ← to_uint_be (d2.length + 8)
  return l2 ++ key ++ d2

/-- Codepoint-level UTF-8 encoding, modelling `value.encode('utf-8')` on the
scalar-value codepoints the theorems quantify over. -/
def utf8EncodeChar (c : Nat) : Bytes :=
  if c < 128 then [c]
  else if c < 2048 then [192 + c / 64, 128 + c % 64]
  else if c < 65536 then [224 + c / 4096, 128 + c / 64 % 64, 128 + c % 64]
  else [240 + c / 262144, 128 + c / 4096 % 64, 128 + c / 64 % 64, 128 + c % 64]

def utf8Encode (s : List Nat) : Bytes := s.flatMap utf8EncodeChar

/-- Continuation byte test for UTF-8 decoding. -/
def isCont (b : Nat) : Bool := 128 ≤ b ∧ b < 192

/-- One step of UTF-8 decoding with replacement: given the lead byte and the
remaining bytes, produce the decoded codepoint (the replacement character
U+FFFD = 65533 for malformed input) and the bytes still to decode. -/
def utf8Step (b : Nat) (rest : Bytes) : Nat × Bytes :=
  if b < 128 then (b, rest)
  else if 194 ≤ b ∧ b < 224 then
    match rest with
    | r1 :: rest1 =>
      if isCont r1 then ((b - 192) * 64 + (r1 - 128), rest1) else (65533, rest)
    | [] => (65533, [])
  else if 224 ≤ b ∧ b < 240 then
    match rest with
    | r1 :: r2 :: rest2 =>
      if isCont r1 ∧ isCont r2 ∧ (b = 224 → 160 ≤ r1) ∧ (b = 237 → r1 < 160) then
        ((b - 224) * 4096 + (r1 - 128) * 64 + (r2 - 128), rest2)
      else (65533, rest)
    | _ => (65533, [])
  else if 240 ≤ b ∧ b < 245 then
    match rest with
    | r1 :: r2 :: r3 :: rest3 =>
      if isCont r1 ∧ isCont r2 ∧ isCont r3 ∧ (b = 240 → 144 ≤ r1) ∧ (b = 244 → r1 < 144) then
        ((b - 240) * 262144 + (r1 - 128) * 4096 + (r2 - 128) * 64 + (r3 - 128), rest3)
      else (65533, rest)
    | _ => (65533, [])
  else (65533, rest)

theorem utf8Step_length (b : Nat) (rest : Bytes) :
    (utf8Step b rest).2.length ≤ rest.length := by
  simp only [utf8Step]
  repeat' split
  all_goals (simp <;> omega)

/-- Codepoint-level UTF-8 decoding with replacement, modelling
`data.decode('utf-8', 'replace')`: a valid sequence decodes to its
codepoints; malformed bytes become the replacement character U+FFFD. -/
def utf8DecodeReplace : Bytes → List Nat
  | [] => []
  | b :: rest => (utf8Step b rest).1 :: utf8DecodeReplace (utf8Step b rest).2
termination_by l => l.length
decreasing_by
  have := utf8Step_length b rest
  simp only [List.length_cons]
  omega

/-- `M4ATags.__render_text`: generic envelope with type flag 1 around the
UTF-8 encoding of the value. -/
def render_text (key : Bytes) (s : List Nat) : Except Err Bytes :=
  render_data key 1 (utf8Encode s)

/-- `M4ATags.__render_tempo`: envelope flag 0x15 around the 2-byte value. -/
def render_tempo (key : Bytes) (n : Nat) : Except Err Bytes := do
  render_data key 21 (← to_ushort_be n)

/-- `M4ATags.__render_compilation`: envelope flag 0x15 around the single byte
1 when true; the empty byte string when false. -/
def render_compilation (key : Bytes) (v : Bool) : Except Err Bytes :=
  if v then render_data key 21 [1] else .ok []

/-- `M4ATags.__render_cover`: envelope flag 0xD around the raw bytes. -/
def render_cover (key : Bytes) (d : Bytes) : Except Err Bytes :=
  render_data key 13 d

/-- `M4ATags.__render_pair`: `struct.pack(">4H", 0, 0, 0, track, total, 0)`
passes six values to a four-field format, then wraps the result with type
flag 0. -/
def render_pair (key : Bytes) (track total : Nat) : Except Err Bytes := do
  render_data key 0 (← structPack4H [0, 0, 0, track, total, 0])

/-- Python `s.split(":", 2)` followed by unpacking into three names: split at
the first two colons; fewer than two colons make the unpacking raise
`ValueError`. -/
def splitFirst (sep : Nat) : Bytes → Option (Bytes × Bytes)
  | [] => none
  | x :: xs =>
    if x = sep then some ([], xs)
    else (splitFirst sep xs).map (fun p => (x :: p.1, p.2))

def splitColon2 (key : Bytes) : Except Err (Bytes × Bytes × Bytes) :=
  match splitFirst 58 key with
  | none => .error .valueError
  | some (a, rest) =>
    match splitFirst 58 rest with
    | none => .error .valueError
    | some (b, c) => .ok (a, b, c)

/-- `M4ATags.__render_freeform`: split the composite key, build the `mean`,
`name` and `data` sub-records, and wrap them in a `----` box. -/
def render_freeform (key : Bytes) (value : Bytes) : Except Err Bytes := do
  let (_, mean, nm) ← splitColon2 key
  let z ← to_uint_be 0
  let m1 ← to_uint_be (mean.length + 12)
  let meanR := m1 ++ meanName ++ z ++ mean
  let n1 ← to_uint_be (nm.length + 12)
  let nameR := n1 ++ nameName ++ z ++ nm
  let v1 ← to_uint_be (value.length + 16)
  let one ← to_uint_be 1
  let valueR := v1 ++ dataName ++ one ++ z ++ value
  let final := meanR ++ nameR ++ valueR
  let l ← to_uint_be (final.length + 8)
  return l ++ dashK ++ final

/-- The render half of the dispatch table `M4ATags.atoms`, keyed on
`key[:4]` with the text renderer as default (`M4ATags.__render`); the `gnre`
entry has `None` as renderer, so rendering a `gnre` key raises `TypeError`.
Value shapes other than the one each renderer consumes also raise
`TypeError` (Python would fail dynamically inside the renderer). -/
def renderEntry : Bytes × TagValue → Except Err Bytes
  | (key, v) =>
    let code := key.take 4
    if code = dashK then
      match v with | .bytes d => render_freeform key d | _ => .error .typeError
    else if code = trknK ∨ code = diskK then
      match v with | .pair a b => render_pair key a b | _ => .error .typeError
    else if code = gnreK then .error .typeError
    else if code = tmpoK then
      match v with | .num n => render_tempo key n | _ => .error .typeError
    else if code = cpilK then
      match v with | .bool bv => render_compilation key bv | _ => .error .typeError
    else if code = covrK then
      match v with | .bytes d => render_cover key d | _ => .error .typeError
    else
      match v with | .text s => render_text key s | _ => .error .typeError

/-- `M4ATags.__render`: render every entry in mapping order and join. -/
def m4aTagsRender (m : TagMap) : Except Err Bytes := do
  let vs ← m.mapM renderEntry
  return vs.flatten

/-- `M4ATags.__parse_text`: UTF-8-decode (with replacement) the payload from
offset 16 and store it under the atom's code. -/
def parse_text (m : TagMap) (name data : Bytes) : Except Err TagMap :=
  .ok (mapSet m name (.text (utf8DecodeReplace (data.drop 16))))

/-- `M4ATags.__parse_tempo`: 16-bit big-endian value at payload bytes 16–18. -/
def parse_tempo (m : TagMap) (name data : Bytes) : Except Err TagMap := do
  return mapSet m name (.num (← short_be (sliceBytes data 16 18)))

/-- `M4ATags.__parse_pair`: `struct.unpack(">2H", data[18:22])`, requiring the
slice to be exactly 4 bytes. -/
def parse_pair (m : TagMap) (name data : Bytes) : Except Err TagMap :=
  let s := sliceBytes data 18 22
  if s.length = 4 then
    .ok (mapSet m name (.pair (beVal (s.take 2)) (beVal (s.drop 2))))
  else .error .structError

/-- Modelled from the spec: the fixed ordered genre-name table
(`mutagen._constants.GENRES`, not under `src/`); only its 1-based indexing
and its first entry matter to the claims, so a short concrete table stands
in for it (§4.2 "map it through a fixed ordered genre-name table (1-based
index)"). -/
def GENRES : List (List Nat) :=
  [[66, 108, 117, 101, 115], [67, 108, 97, 115, 115, 105, 99, 32, 82, 111, 99, 107]]

/-- Python list indexing `l[i]` with an `int` index: negative indices count
from the end; out-of-range indexing raises `IndexError` (here: `none`). -/
def pyIndex (l : List (List Nat)) (i : Int) : Option (List Nat) :=
  if 0 ≤ i then l.get? i.toNat
  else if (-i).toNat ≤ l.length then l.get? (l.length - (-i).toNat)
  else none

/-- `M4ATags.__parse_genre`: read the 16-bit genre index, and if no textual
genre tag is present store `GENRES[genre - 1]` under `"\xa9gen"`, silently
skipping an out-of-range index (`except IndexError: pass`). -/
def parse_genre (m : TagMap) (data : Bytes) : Except Err TagMap := do
  let g ← short_be (sliceBytes data 16 18)
  if hasKey m genK then return m
  else
    match pyIndex GENRES ((g : Int) - 1) with
    | some s => return mapSet m genK (.text s)
    | none => return m

/-- `M4ATags.__parse_compilation`: `bool(ord(data[16:17]))`; a too-short
payload makes `ord` raise `TypeError`, which is caught and stored as
`False`. -/
def parse_compilation (m : TagMap) (name data : Bytes) : Except Err TagMap :=
  match sliceBytes data 16 17 with
  | [c] => .ok (mapSet m name (.bool (c ≠ 0)))
  | _ => .ok (mapSet m name (.bool false))

/-- `M4ATags.__parse_cover`: the payload from offset 16, verbatim. -/
def parse_cover (m : TagMap) (name data : Bytes) : Except Err TagMap :=
  .ok (mapSet m name (.bytes (data.drop 16)))

/-- A `StringIO.read(n)` over the remaining bytes: a negative count reads
everything (as `cStringIO` does), otherwise up to `n` bytes. -/
def pyRead (rest : Bytes) (n : Int) : Bytes × Bytes :=
  if n < 0 then (rest, []) else (rest.take n.toNat, rest.drop n.toNat)

/-- `M4ATags.__parse_freeform`: read the three length-prefixed sub-records
(`mean`/`name` drop an 8-byte name+flags header, `data` drops 12 bytes of
name, flags and reserved) and store the value under the composite key
`"%s:%s:%s" % (atom.name, mean, name)`. -/
def parse_freeform (m : TagMap) (name data : Bytes) : Except Err TagMap := do
  let meanLen ← uint_be (data.take 4)
  let r1 := data.drop 4
  let (meanRaw, r2) := pyRead r1 ((meanLen : Int) - 4)
  let mean := meanRaw.drop 8
  let nameLen ← uint_be (r2.take 4)
  let r3 := r2.drop 4
  let (nameRaw, r4) := pyRead r3 ((nameLen : Int) - 4)
  let nm := nameRaw.drop 8
  let valueLen ← uint_be (r4.take 4)
  let r5 := r4.drop 4
  let (valueRaw, _) := pyRead r5 ((valueLen : Int) - 4)
  let value := valueRaw.drop 12
  return mapSet m (name ++ [58] ++ mean ++ [58] ++ nm) (.bytes value)

/-- The parse half of the dispatch table `M4ATags.atoms`, keyed on the atom's
exact 4-byte code with the text decoder as default (`M4ATags.__init__`). -/
def parseEntry (m : TagMap) (name data : Bytes) : Except Err TagMap :=
  if name = dashK then parse_freeform m name data
  else if name = trknK ∨ name = diskK then parse_pair m name data
  else if name = gnreK then parse_genre m data
  else if name = tmpoK then parse_tempo m name data
  else if name = cpilK then parse_compilation m name data
  else if name = covrK then parse_cover m name data
  else parse_text m name data

/-- Python file `read(n)` at an absolute position, with `cStringIO`/file
semantics for a negative count (read to the end). -/
def pyReadAt (b : Bytes) (pos : Nat) (n : Int) : Bytes :=
  if n < 0 then b.drop pos else (b.drop pos).take n.toNat

/-- The loop body of `M4ATags.__init__`: for each child atom of `ilst`, seek
to `offset + 8`, read `length - 8` payload bytes, and dispatch on the code. -/
def m4aTagsOfChildren (b : Bytes) (kids : List Atom) : Except Err TagMap :=
  kids.foldlM (fun m a => parseEntry m a.name (pyReadAt b (a.offset + 8) ((a.length : Int) - 8))) []

def ilstPath : List Bytes := [moovN, udtaN, metaN, ilstN]

/-- `M4ATags.__init__`: resolve `moov.udta.meta.ilst` (a failed lookup raises
`KeyError`) and decode every child. -/
def m4aTagsInit (tree : List Atom) (b : Bytes) : Except Err TagMap :=
  match atomsGet tree ilstPath with
  | .error e => .error e
  | .ok ilst =>
    match ilst.children with
    | some kids => m4aTagsOfChildren b kids
    | none => .error .typeError

/-- Decoding an encoded `ilst` payload: parse the bytes into boxes with the
atom reader (as `Atom.__init__` does for the children of an `ilst`
container) and decode each box with the tag dispatch. -/
def decodeIlstBytes (b : Bytes) : Except Err TagMap :=
  match parseC (b.length + 4) b 0 b.length with
  | .ok (kids, _) => m4aTagsOfChildren b kids
  | .error e => .error e

/-! ### Stream info (`M4AInfo`) -/

def mdhdPath : List Bytes := [moovN, trakN, mdiaN, mdhdN]

/-- The layout computation of `M4AInfo.__init__` on the bytes read for the
`mdhd` atom (`data = fileobj.read(atom.length)` starting at `atom.offset`):
`ord(data[9])` selects the layout (`IndexError` if the data is shorter);
layout 0 unpacks `">2I"` from `data[20:28]`, the other unpacks `">IQ"` from
`data[28:40]` (a short slice raises `struct.error`); the result is
`float(length) / unit`, modelled as exact rational division
(`ZeroDivisionError` when the time-scale unit is zero). -/
def m4aInfoData (data : Bytes) : Except Err ℚ :=
  match data[9]? with
  | none => .error .indexError
  | some v =>
    if v = 0 then
      if (sliceBytes data 20 28).length = 8 then
        let unit := u32at data 20
        let len := u32at data 24
        if unit = 0 then .error .zeroDivisionError else .ok ((len : ℚ) / (unit : ℚ))
      else .error .structError
    else
      if (sliceBytes data 28 40).length = 12 then
        let unit := u32at data 28
        let len := u64at data 32
        if unit = 0 then .error .zeroDivisionError else .ok ((len : ℚ) / (unit : ℚ))
      else .error .structError

/-- `M4AInfo.__init__`: resolve `moov.trak.mdia.mdhd`, read the atom's bytes
and compute the duration. -/
def m4aInfo (tree : List Atom) (b : Bytes) : Except Err ℚ :=
  match atomsGet tree mdhdPath with
  | .error e => .error e
  | .ok a => m4aInfoData (readBytes b a.offset a.length)

/-! ### Cursor invariants of the box reader -/

/-- A successful child loop leaves the cursor at or beyond `stop`, except when
it ran no iteration at all, in which case the cursor is unchanged and was
already at or beyond `stop`. -/
theorem parseC_post : ∀ (fuel : Nat) (b : Bytes) (pos stop : Nat) (as : List Atom) (p : Nat),
    parseC fuel b pos stop = .ok (as, p) → stop ≤ p ∨ (p = pos ∧ stop ≤ pos) := by
  intro fuel
  induction fuel with
  | zero => intro b pos stop as p h; simp [parseC] at h
  | succ n ih =>
    intro b pos stop as p h
    simp only [parseC] at h
    by_cases h1 : pos < stop
    · simp only [if_pos h1] at h
      by_cases h2 : pos + 8 ≤ b.length
      · simp only [if_pos h2] at h
        split at h
        · exact Except.noConfusion h
        · split at h
          · split at h
            · split at h
              · rename_i hsib
                injection h with h'
                injection h' with hA hP
                subst hP
                rcases ih _ _ _ _ _ hsib with hle | ⟨hpe, hse⟩
                · exact Or.inl hle
                · exact Or.inl (by omega)
              · exact Except.noConfusion h
            · exact Except.noConfusion h
          · split at h
            · rename_i hsib
              injection h with h'
              injection h' with hA hP
              subst hP
              rcases ih _ _ _ _ _ hsib with hle | ⟨hpe, hse⟩
              · exact Or.inl hle
              · exact Or.inl (by omega)
            · exact Except.noConfusion h
      · simp [if_neg h2] at h
    · simp only [if_neg h1] at h
      injection h with h'
      injection h' with hA hP
      subst hP
      exact Or.inr ⟨rfl, le_of_not_lt h1⟩

/-- A successfully constructed atom records the cursor position at which its
header was read as `offset` and the declared 32-bit length as `length`; the
cursor afterwards is at least `offset + length`, with equality guaranteed for
leaves. -/
theorem parseAtom_post (fuel : Nat) (b : Bytes) (pos : Nat) (a : Atom) (p : Nat)
    (h : parseAtom fuel b pos = .ok (a, p)) :
    a.offset = pos ∧ a.length = u32at b pos ∧ pos + a.length ≤ p ∧
      (a.children = none → p = pos + a.length) := by
  simp only [parseAtom] at h
  by_cases h2 : pos + 8 ≤ b.length
  · simp only [if_pos h2] at h
    split at h
    · exact Except.noConfusion h
    · split at h
      · split at h
        · rename_i hkids
          injection h with h'
          injection h' with hA hP
          subst hA hP
          simp only [Atom.offset, Atom.length, Atom.children]
          rcases parseC_post _ _ _ _ _ _ hkids with hle | ⟨hpe, hse⟩
          · exact ⟨by trivial, by trivial, by omega, by simp⟩
          · exact ⟨by trivial, by trivial, by omega, by simp⟩
        · exact Except.noConfusion h
      · injection h with h'
        injection h' with hA hP
        subst hA hP
        simp only [Atom.offset, Atom.length, Atom.children]
        exact ⟨by trivial, by trivial, le_refl _, fun _ => by trivial⟩
  · simp [if_neg h2] at h

/-! ### Concrete byte sources used as counterexamples and witnesses -/

def freeN : Bytes := [102, 114, 101, 101]

/-- A 24-byte source: a `moov` container declaring length 16 whose single
child `free` declares length 16 and therefore overruns the container's
declared end (byte 16) by 8 bytes. -/
def file24 : Bytes :=
  [0, 0, 0, 16] ++ moovN ++ [0, 0, 0, 16] ++ freeN ++ [0, 0, 0, 0, 0, 0, 0, 0]

/-- A 15-byte source whose first atom (`free`) declares length 7 (< 8): the
seek leaves the cursor at byte 7, where the next header read yields the huge
length 1694498816, after which the loop reaches its boundary and stops. -/
def file15 : Bytes :=
  [0, 0, 0, 7] ++ freeN ++ [0, 0, 0] ++ [65, 66, 67, 68]

/-- A 16-byte source of two well-formed length-8 `free` leaves. -/
def file16 : Bytes :=
  [0, 0, 0, 8] ++ freeN ++ [0, 0, 0, 8] ++ freeN

/-- An 8-byte source consisting of one `free` header declaring length 0. -/
def file8z : Bytes := [0, 0, 0, 0] ++ freeN

/-- C5, amended: for every successfully parsed atom the cursor ends exactly at
`offset + length` when the atom is a leaf, and at or beyond `offset + length`
when it is a container (whose children may overrun the declared end); the
atom's `offset` is the position of its header and `length` the declared
32-bit value. -/
theorem parse_cursor_invariant (fuel : Nat) (b : Bytes) (pos : Nat) (a : Atom) (p : Nat)
    (h : parseAtom fuel b pos = .ok (a, p)) :
    a.offset = pos ∧ a.offset + a.length ≤ p ∧
      (a.children = none → p = a.offset + a.length) := by
  obtain ⟨ho, _, hle, heq⟩ := parseAtom_post fuel b pos a p h
  exact ⟨ho, ho ▸ hle, fun hc => ho ▸ heq hc⟩

/-- C5, counterexample: on `file24`, parsing succeeds, yet the cursor after
the `moov` container sits at 24 ≠ 0 + 16 = `offset + length` (the child
overran the declared end), and the sum of the top-level atom lengths is
16 ≠ 24, the total byte length of the source. -/
theorem parse_cursor_invariant_cex :
    parseAtom 4 file24 0 = .ok (Atom.mk 0 16 moovN (some [Atom.mk 8 16 freeN none]), 24) ∧
    (24 : Nat) ≠ 0 + 16 ∧
    parseAtoms 28 file24 = .ok [Atom.mk 0 16 moovN (some [Atom.mk 8 16 freeN none])] ∧
    (16 : Nat) ≠ file24.length := by
  exact ⟨rfl, by decide, rfl, by decide⟩

/-- C5, witness for the amended invariant: the leaf `free` box of `file16`
parses with the cursor landing exactly on `offset + length = 8`. -/
theorem parse_cursor_invariant_witness :
    (Atom.mk 0 8 freeN none).offset = 0 ∧
      (Atom.mk 0 8 freeN none).offset + (Atom.mk 0 8 freeN none).length ≤ 8 ∧
      ((Atom.mk 0 8 freeN none).children = none →
        8 = (Atom.mk 0 8 freeN none).offset + (Atom.mk 0 8 freeN none).length) :=
  parse_cursor_invariant 4 file16 0 (Atom.mk 0 8 freeN none) 8 rfl

/-- C9: at a box boundary the reader takes a big-endian 32-bit length and a
4-byte code, and a length field of exactly 1 (the extended 64-bit size
convention) raises the module's `error` ("64 bit atom sizes are not
supported") without constructing an atom. -/
theorem length_one_format_error (fuel : Nat) (b : Bytes) (pos : Nat)
    (hlen : pos + 8 ≤ b.length) (h1 : u32at b pos = 1) :
    parseAtom fuel b pos = .error .formatError := by
  simp [parseAtom, hlen, h1]

/-- C9, witness: an 8-byte source whose length field is 1. -/
theorem length_one_format_error_witness :
    parseAtom 4 ([0, 0, 0, 1] ++ freeN) 0 = .error .formatError :=
  length_one_format_error 4 ([0, 0, 0, 1] ++ freeN) 0 (by decide) (by decide)

/-! ### Termination of the parse loops -/

/-- A successful single-atom parse presupposes that 8 header bytes were
available at the cursor. -/
theorem parseAtom_ok_header (fuel : Nat) (b : Bytes) (pos : Nat) (a : Atom) (p : Nat)
    (h : parseAtom fuel b pos = .ok (a, p)) : pos + 8 ≤ b.length := by
  by_contra hc
  simp [parseAtom, hc] at h

/-- Auxiliary step for `parseC_no_fuelOut`: a single-atom parse at fuel `n+1`
cannot exhaust fuel when the sibling-loop bound holds at fuel `n`. -/
theorem parseAtom_no_fuelOut (b : Bytes) (n pos : Nat)
    (hinv : b.length ≤ pos + 8 * (n+1))
    (IH : ∀ q stop, b.length ≤ q + 8 * n → parseC (n+1) b q stop ≠ .error .fuelOut) :
    parseAtom (n+1) b pos ≠ .error .fuelOut := by
  intro hcon
  simp only [parseAtom] at hcon
  by_cases h2 : pos + 8 ≤ b.length
  · simp only [if_pos h2] at hcon
    split at hcon
    · exact Except.noConfusion hcon (fun h => Err.noConfusion h)
    · split at hcon
      · split at hcon
        · exact Except.noConfusion hcon
        · rename_i e hkids
          injection hcon with h'
          subst h'
          exact IH (pos + 8 + skipSize (readBytes b (pos+4) 4)) (pos + u32at b pos)
            (by omega) hkids
      · exact Except.noConfusion hcon
  · simp only [if_neg h2] at hcon
    injection hcon with h'
    exact Err.noConfusion h'

/-- When every possible header position of the source declares a length of at
least 8, the parse loop never exhausts fuel `fuel+1` once
`b.length ≤ pos + 8 * fuel`: each iteration advances the cursor by at least
8 bytes, so the loop completes (successfully or with a Python-level error)
within the fuel. -/
theorem parseC_no_fuelOut (b : Bytes)
    (H : ∀ q, q < b.length → q + 8 ≤ b.length → 8 ≤ u32at b q) :
    ∀ (fuel pos stop : Nat), b.length ≤ pos + 8 * fuel →
      parseC (fuel+1) b pos stop ≠ .error .fuelOut := by
  intro fuel
  induction fuel with
  | zero =>
    intro pos stop hinv
    rw [parseC_succ]
    by_cases h1 : pos < stop
    · have h2 : ¬ (pos + 8 ≤ b.length) := by omega
      simp [h1, parseAtom, h2]
    · simp [h1]
  | succ n ih =>
    intro pos stop hinv
    rw [parseC_succ]
    by_cases h1 : pos < stop
    · simp only [if_pos h1]
      cases hA : parseAtom (n+1) b pos with
      | error e =>
        have hne := parseAtom_no_fuelOut b n pos hinv ih
        rw [hA] at hne
        simp only [hA]
        intro hcon
        injection hcon with h'
        exact hne (by rw [h'])
      | ok ap =>
        obtain ⟨a, p1⟩ := ap
        have hhdr := parseAtom_ok_header _ _ _ _ _ hA
        have hlen8 : 8 ≤ u32at b pos := H pos (by omega) hhdr
        obtain ⟨_, hL, hadv, _⟩ := parseAtom_post _ _ _ _ _ hA
        cases hS : parseC (n+1) b p1 stop with
        | error e =>
          have := ih p1 stop (by omega)
          rw [hS] at this
          simp only [hA, hS]
          intro hcon
          injection hcon with h'
          exact this (by rw [h'])
        | ok asp =>
          simp [hA, hS]
    · simp [h1]

/-- C10, amended: when every header position of the source declares a length
of at least 8, `Atoms` construction terminates — the modelled loop never
exhausts its fuel once the fuel covers the source at 8 bytes per iteration;
and a leaf header declaring length 0 leaves the cursor at its own start, so
the enclosing loop re-reads the same header forever and never terminates.
(A length below 8 does not in general prevent termination: see the
counterexample.) -/
theorem parse_terminates :
    (∀ (b : Bytes) (fuel : Nat),
      (∀ q, q < b.length → q + 8 ≤ b.length → 8 ≤ u32at b q) →
      b.length ≤ 8 * fuel →
      parseAtoms (fuel+1) b ≠ .error .fuelOut) ∧
    (∀ (b : Bytes) (pos stop : Nat), pos < stop → pos + 8 ≤ b.length →
      u32at b pos = 0 → readBytes b (pos+4) 4 ∉ _CONTAINERS →
      ∀ fuel, parseC fuel b pos stop = .error .fuelOut) := by
  constructor
  · intro b fuel H hfuel
    have h := parseC_no_fuelOut b H fuel 0 b.length (by omega)
    intro hcon
    simp only [parseAtoms] at hcon
    cases hP : parseC (fuel+1) b 0 b.length with
    | ok v => rw [hP] at hcon; exact Except.noConfusion hcon
    | error e =>
      rw [hP] at hcon
      injection hcon with h'
      exact h (by rw [hP, h'])
  · intro b pos stop h1 h2 h0 hnc fuel
    induction fuel with
    | zero => rfl
    | succ n ih =>
      rw [parseC_succ, if_pos h1]
      have hA : parseAtom n b pos =
          .ok (Atom.mk pos 0 (readBytes b (pos+4) 4) none, pos) := by
        simp [parseAtom, h2, h0, hnc]
      simp [hA, ih]

theorem parse_terminates_witness :
    ((∀ q, q < file16.length → q + 8 ≤ file16.length → 8 ≤ u32at file16 q) ∧
      file16.length ≤ 8 * 2 ∧ parseAtoms 3 file16 ≠ .error .fuelOut) ∧
    ((0 : Nat) < 8 ∧ 0 + 8 ≤ file8z.length ∧ u32at file8z 0 = 0 ∧
      readBytes file8z (0+4) 4 ∉ _CONTAINERS ∧
      ∀ fuel, parseC fuel file8z 0 8 = .error .fuelOut) :=
  ⟨⟨by decide, by decide, parse_terminates.1 file16 2 (by decide) (by decide)⟩,
   ⟨by decide, by decide, by decide, by decide,
    parse_terminates.2 file8z 0 8 (by decide) (by decide) (by decide) (by decide)⟩⟩

/-- C10, counterexample: `file15`'s first atom declares length 7 (< 8), yet
`Atoms` construction terminates — the cursor lands at byte 7, reads a huge
length there, and the loop reaches its boundary. -/
theorem parse_terminates_cex :
    parseAtoms 16 file15 =
      .ok [Atom.mk 0 7 freeN none, Atom.mk 7 1694498816 [65, 66, 67, 68] none] := rfl

/-! ### Path lookup failures -/

/-- Every failure of `Atom.__getitem__` is a `KeyError`. -/
theorem atomGet_err : ∀ (path : List Bytes) (a : Atom) (e : Err),
    atomGet a path = .error e → e = .keyError := by
  intro path
  induction path with
  | nil => intro a e h; simp [atomGet] at h
  | cons n rest ih =>
    intro a e h
    simp only [atomGet] at h
    split at h
    · injection h with h'; exact h'.symm
    · split at h
      · exact ih _ _ h
      · injection h with h'; exact h'.symm

/-- C6: resolving a path whose first segment matches no top-level atom raises
`KeyError` (a `LookupError`), and resolving a non-empty remaining path
against a leaf atom (one whose `children` is `None`) raises `KeyError`. -/
theorem lookup_failures :
    (∀ (atoms : List Atom) (n : Bytes) (rest : List Bytes),
       (∀ a ∈ atoms, a.name ≠ n) → atomsGet atoms (n :: rest) = .error .keyError)
    ∧ (∀ (a : Atom) (n : Bytes) (rest : List Bytes),
       a.children = none → atomGet a (n :: rest) = .error .keyError) := by
  constructor
  · intro atoms n rest hnone
    have : atoms.find? (fun c => c.name = n) = none := by
      rw [List.find?_eq_none]
      intro a ha
      simp [hnone a ha]
    simp [atomsGet, this]
  · intro a n rest hleaf
    simp [atomGet, hleaf]

/-- C6, witness: lookup of `udta` among top-level `[moov-leaf]` fails, and
lookup inside the leaf fails. -/
theorem lookup_failures_witness :
    atomsGet [Atom.mk 0 8 moovN none] (udtaN :: []) = .error .keyError ∧
      atomGet (Atom.mk 0 8 moovN none) (udtaN :: []) = .error .keyError :=
  ⟨lookup_failures.1 [Atom.mk 0 8 moovN none] udtaN []
     (by intro a ha; simp at ha; subst ha; decide),
   lookup_failures.2 (Atom.mk 0 8 moovN none) udtaN [] rfl⟩

/-- C4, amended: when `moov.udta.meta.ilst` cannot be resolved, constructing
the tag mapping fails with `KeyError` (a `LookupError`) — not with
`M4AMetadataError`, which the module declares but never raises. -/
theorem tags_missing_ilst (tree : List Atom) (b : Bytes) (e : Err)
    (h : atomsGet tree ilstPath = .error e) :
    e = .keyError ∧ m4aTagsInit tree b = .error .keyError := by
  have he : e = .keyError := by
    simp only [atomsGet, ilstPath] at h
    split at h
    · exact atomGet_err _ _ _ h
    · injection h with h'; exact h'.symm
  subst he
  refine ⟨rfl, ?_⟩
  simp [m4aTagsInit, h]

/-- C4, counterexample: on an empty atom tree the construction fails with
`KeyError`, which is not the (never-raised) `M4AMetadataError`. -/
theorem tags_missing_ilst_cex :
    m4aTagsInit [] [] = .error .keyError ∧ Err.keyError ≠ Err.metadataError :=
  ⟨rfl, by decide⟩

/-- C4, witness: the amended statement applied to the empty tree. -/
theorem tags_missing_ilst_witness :
    Err.keyError = Err.keyError ∧ m4aTagsInit [] [] = .error .keyError :=
  tags_missing_ilst [] [] .keyError rfl

/-! ### Stream info -/

/-- C3: byte 9 of the bytes read for the `mdhd` atom selects the layout; when
it is 0 the time-scale unit is the 32-bit value at offset 20 and the duration
the 32-bit value at offset 24; otherwise the unit is the 32-bit value at
offset 28 and the duration the 64-bit value at offset 32; the result is their
exact quotient (Python float division modelled as rational division, defined
whenever the unit is non-zero). -/
theorem stream_info_duration (data : Bytes) :
    (data[9]? = some 0 → 28 ≤ data.length → u32at data 20 ≠ 0 →
      m4aInfoData data = .ok ((u32at data 24 : ℚ) / (u32at data 20 : ℚ)))
    ∧ (∀ v, data[9]? = some v → v ≠ 0 → 40 ≤ data.length → u32at data 28 ≠ 0 →
      m4aInfoData data = .ok ((u64at data 32 : ℚ) / (u32at data 28 : ℚ))) := by
  constructor
  · intro h9 hlen hz
    have hsl : (sliceBytes data 20 28).length = 8 := by
      simp [sliceBytes]
      omega
    simp [m4aInfoData, h9, hsl, hz]
  · intro v h9 hv hlen hz
    have hsl : (sliceBytes data 28 40).length = 12 := by
      simp [sliceBytes]
      omega
    simp [m4aInfoData, h9, hv, hsl, hz]

/-- A 28-byte layout-0 media header with unit 1000 and duration 5000. -/
def mdhdV0 : Bytes := List.replicate 20 0 ++ [0, 0, 3, 232] ++ [0, 0, 19, 136]

/-- A 40-byte layout-1 media header with unit 1000 and duration 5000. -/
def mdhdV1 : Bytes :=
  List.replicate 9 0 ++ [1] ++ List.replicate 18 0 ++ [0, 0, 3, 232] ++ [0, 0, 0, 0, 0, 0, 19, 136]

/-- C3, witness: unit 1000 with duration 5000 yields exactly 5 seconds under
both layouts. -/
theorem stream_info_duration_witness :
    m4aInfoData mdhdV0 = .ok ((u32at mdhdV0 24 : ℚ) / (u32at mdhdV0 20 : ℚ)) ∧
    (u32at mdhdV0 24 : ℚ) / (u32at mdhdV0 20 : ℚ) = 5 ∧
    m4aInfoData mdhdV1 = .ok ((u64at mdhdV1 32 : ℚ) / (u32at mdhdV1 28 : ℚ)) ∧
    (u64at mdhdV1 32 : ℚ) / (u32at mdhdV1 28 : ℚ) = 5 := by
  refine ⟨(stream_info_duration mdhdV0).1 rfl (by decide) (by decide), ?_,
    (stream_info_duration mdhdV1).2 1 rfl (by decide) (by decide) (by decide), ?_⟩
  · have e1 : u32at mdhdV0 24 = 5000 := rfl
    have e2 : u32at mdhdV0 20 = 1000 := rfl
    rw [e1, e2]
    norm_num
  · have e1 : u64at mdhdV1 32 = 5000 := rfl
    have e2 : u32at mdhdV1 28 = 1000 := rfl
    rw [e1, e2]
    norm_num

/-! ### Compilation flag -/

/-- The encoding of a true compilation flag: a `cpil` box around a `data`
envelope with type flag 0x15 = 21 carrying the single byte 1. -/
def cpilBox : Bytes :=
  [0, 0, 0, 25] ++ cpilK ++ [0, 0, 0, 17] ++ dataName ++ [0, 0, 0, 21] ++ [0, 0, 0, 0] ++ [1]

/-- C7: encoding `true` yields the 0x15-flagged envelope carrying the byte 1,
and decoding it back yields `true`; encoding `false` yields the empty byte
string; decoding a payload too short to hold the flag byte at offset 16
stores `false`. -/
theorem compilation_codec :
    render_compilation cpilK true = .ok cpilBox
    ∧ decodeIlstBytes cpilBox = .ok [(cpilK, .bool true)]
    ∧ render_compilation cpilK false = .ok []
    ∧ (∀ (m : TagMap) (data : Bytes), data.length ≤ 16 →
        parse_compilation m cpilK data = .ok (mapSet m cpilK (.bool false))) := by
  refine ⟨rfl, rfl, rfl, ?_⟩
  intro m data hlen
  have hsl : sliceBytes data 16 17 = [] := by
    apply List.eq_nil_of_length_eq_zero
    simp [sliceBytes]
    omega
  simp [parse_compilation, hsl]

/-- C7, witness: the short-payload clause applied to the empty payload. -/
theorem compilation_codec_witness :
    parse_compilation [] cpilK [] = .ok (mapSet [] cpilK (.bool false)) :=
  compilation_codec.2.2.2 [] [] (by decide)

theorem exc_bind_ok {α β : Type} (a : α) (f : α → Except Err β) :
    (Except.ok a >>= f) = f a := rfl

theorem exc_bind_err {α β : Type} (e : Err) (f : α → Except Err β) :
    ((Except.error e : Except Err α) >>= f) = .error e := rfl

theorem exc_pure {α : Type} (a : α) : (pure a : Except Err α) = .ok a := rfl

/-! ### Legacy numeric genre -/

theorem hasKey_append (m : TagMap) (e : Bytes × TagValue) (k : Bytes) :
    hasKey (m ++ [e]) k = (hasKey m k || decide (e.1 = k)) := by
  simp [hasKey]

theorem hasKey_mapSet_ne (m : TagMap) (k k' : Bytes) (v : TagValue) (hne : k ≠ k') :
    hasKey (mapSet m k v) k' = hasKey m k' := by
  simp only [mapSet]
  split
  · simp only [hasKey, List.any_map]
    congr 1
    funext e
    by_cases he : e.1 = k
    · simp [he, Function.comp, hne]
    · simp [Function.comp, he]
  · rw [hasKey_append]
    simp [hne]

/-- C8: a numeric genre atom with index 1 stores the first genre-table name
under the textual key `"\xa9gen"` only when that key is absent; when the
textual key is present the mapping is unchanged; and in all cases the decoder
never stores anything under the `gnre` code itself. -/
theorem genre_decoder :
    (∀ (m : TagMap) (data : Bytes), 18 ≤ data.length →
       beVal (sliceBytes data 16 18) = 1 → hasKey m genK = false →
       parse_genre m data = .ok (m ++ [(genK, .text GENRES.headI)]))
    ∧ (∀ (m : TagMap) (data : Bytes), 18 ≤ data.length → hasKey m genK = true →
       parse_genre m data = .ok m)
    ∧ (∀ (m : TagMap) (data : Bytes) (r : TagMap), parse_genre m data = .ok r →
       hasKey r gnreK = hasKey m gnreK) := by
  refine ⟨?_, ?_, ?_⟩
  · intro m data hlen hval habs
    have hsl : (sliceBytes data 16 18).length = 2 := by
      simp [sliceBytes]
      omega
    have hsb : short_be (sliceBytes data 16 18) = .ok 1 := by
      simp [short_be, hsl, hval]
    have hmap : mapSet m genK (.text GENRES.headI) = m ++ [(genK, .text GENRES.headI)] := by
      simp only [mapSet]
      split
      · rename_i hany
        rw [show (m.any fun e => e.1 = genK) = hasKey m genK from rfl] at hany
        rw [habs] at hany
        exact absurd hany (by simp)
      · rfl
    have hpy : pyIndex GENRES (0 : Int) = some GENRES.headI := by decide
    simp [parse_genre, hsb, exc_bind_ok, habs, hpy, exc_pure, hmap]
  · intro m data hlen hpres
    have hsl : (sliceBytes data 16 18).length = 2 := by
      simp [sliceBytes]
      omega
    have hsb : short_be (sliceBytes data 16 18) = .ok (beVal (sliceBytes data 16 18)) := by
      simp [short_be, hsl]
    simp [parse_genre, hsb, exc_bind_ok, hpres, exc_pure]
  · intro m data r h
    simp only [parse_genre] at h
    cases hg : short_be (sliceBytes data 16 18) with
    | error e =>
      rw [hg, exc_bind_err] at h
      exact Except.noConfusion h
    | ok g =>
      rw [hg, exc_bind_ok] at h
      by_cases hk : hasKey m genK
      · simp only [hk, if_true, exc_pure] at h
        injection h with h'
        subst h'
        rfl
      · simp only [hk, if_false, Bool.false_eq_true, exc_pure] at h
        cases hp : pyIndex GENRES ((g : Int) - 1) with
        | some s =>
          simp only [hp, exc_pure] at h
          injection h with h'
          subst h'
          exact hasKey_mapSet_ne m genK gnreK (.text s) (by decide)
        | none =>
          simp only [hp, exc_pure] at h
          injection h with h'
          subst h'
          rfl

/-- A 18-byte numeric genre payload with index 1 at bytes 16–18. -/
def genreData : Bytes := List.replicate 16 0 ++ [0, 1]

/-- C8, witness: genre index 1 on the empty mapping stores the first table
name; on a mapping already holding a textual genre it changes nothing. -/
theorem genre_decoder_witness :
    parse_genre [] genreData = .ok ([] ++ [(genK, .text GENRES.headI)]) ∧
    parse_genre [(genK, .text [65])] genreData = .ok [(genK, .text [65])] ∧
    hasKey ([] ++ [(genK, TagValue.text GENRES.headI)]) gnreK = hasKey ([] : TagMap) gnreK :=
  ⟨genre_decoder.1 [] genreData (by decide) (by decide) (by decide),
   genre_decoder.2.1 [(genK, .text [65])] genreData (by decide) (by decide),
   genre_decoder.2.2 [] genreData ([] ++ [(genK, TagValue.text GENRES.headI)])
     (genre_decoder.1 [] genreData (by decide) (by decide) (by decide))⟩

/-! ### The pair renderer -/

/-- C2: `__render_pair` passes the six values `0, 0, 0, track, total, 0` to
the four-field format `">4H"`, so `struct.pack` raises `struct.error` on
every call and no payload is ever produced; a mapping holding a `trkn` pair
therefore cannot be rendered at all. -/
theorem render_pair_raises :
    structPack4H [0, 0, 0, 1, 2, 0] = .error .structError ∧
    render_pair trknK 1 2 = .error .structError ∧
    m4aTagsRender [(trknK, .pair 1 2)] = .error .structError :=
  ⟨rfl, rfl, rfl⟩

/-! ### UTF-8 round trip -/

/-- A Unicode scalar value (codepoint outside the surrogate range). -/
def ValidScalar (c : Nat) : Prop := c < 55296 ∨ (57344 ≤ c ∧ c < 1114112)

instance (c : Nat) : Decidable (ValidScalar c) := by
  unfold ValidScalar
  infer_instance

theorem utf8dr_nil : utf8DecodeReplace [] = [] := by
  rw [utf8DecodeReplace]

theorem utf8dr_cons (b : Nat) (rest : Bytes) :
    utf8DecodeReplace (b :: rest) =
      (utf8Step b rest).1 :: utf8DecodeReplace (utf8Step b rest).2 := by
  rw [utf8DecodeReplace]

theorem utf8Step_one (b : Nat) (rest : Bytes) (h : b < 128) :
    utf8Step b rest = (b, rest) := by
  simp [utf8Step, h]

theorem utf8Step_two (b r1 : Nat) (rest : Bytes) (h1 : ¬ b < 128) (h2 : 194 ≤ b)
    (h3 : b < 224) (hc : isCont r1 = true) :
    utf8Step b (r1 :: rest) = ((b - 192) * 64 + (r1 - 128), rest) := by
  simp [utf8Step, h1, h2, h3, hc]

theorem utf8Step_three (b r1 r2 : Nat) (rest : Bytes) (h1 : ¬ b < 128)
    (h2 : ¬ (194 ≤ b ∧ b < 224)) (h3 : 224 ≤ b) (h4 : b < 240)
    (hc1 : isCont r1 = true) (hc2 : isCont r2 = true)
    (hl : b = 224 → 160 ≤ r1) (hs : b = 237 → r1 < 160) :
    utf8Step b (r1 :: r2 :: rest) =
      ((b - 224) * 4096 + (r1 - 128) * 64 + (r2 - 128), rest) := by
  have hcond : isCont r1 = true ∧ isCont r2 = true ∧ (b = 224 → 160 ≤ r1) ∧
      (b = 237 → r1 < 160) := ⟨hc1, hc2, hl, hs⟩
  unfold utf8Step
  rw [if_neg h1, if_neg h2, if_pos (show 224 ≤ b ∧ b < 240 from ⟨h3, h4⟩)]
  show (if isCont r1 = true ∧ isCont r2 = true ∧ (b = 224 → 160 ≤ r1) ∧ (b = 237 → r1 < 160)
    then ((b - 224) * 4096 + (r1 - 128) * 64 + (r2 - 128), rest)
    else (65533, r1 :: r2 :: rest)) =
      ((b - 224) * 4096 + (r1 - 128) * 64 + (r2 - 128), rest)
  rw [if_pos hcond]

theorem utf8Step_four (b r1 r2 r3 : Nat) (rest : Bytes) (h1 : ¬ b < 128)
    (h2 : ¬ (194 ≤ b ∧ b < 224)) (h3 : ¬ (224 ≤ b ∧ b < 240)) (h4 : 240 ≤ b)
    (h5 : b < 245) (hc1 : isCont r1 = true) (hc2 : isCont r2 = true)
    (hc3 : isCont r3 = true) (hl : b = 240 → 144 ≤ r1) (hh : b = 244 → r1 < 144) :
    utf8Step b (r1 :: r2 :: r3 :: rest) =
      ((b - 240) * 262144 + (r1 - 128) * 4096 + (r2 - 128) * 64 + (r3 - 128), rest) := by
  have hcond : isCont r1 = true ∧ isCont r2 = true ∧ isCont r3 = true ∧
      (b = 240 → 144 ≤ r1) ∧ (b = 244 → r1 < 144) := ⟨hc1, hc2, hc3, hl, hh⟩
  unfold utf8Step
  rw [if_neg h1, if_neg h2, if_neg h3, if_pos (show 240 ≤ b ∧ b < 245 from ⟨h4, h5⟩)]
  show (if isCont r1 = true ∧ isCont r2 = true ∧ isCont r3 = true ∧
      (b = 240 → 144 ≤ r1) ∧ (b = 244 → r1 < 144)
    then ((b - 240) * 262144 + (r1 - 128) * 4096 + (r2 - 128) * 64 + (r3 - 128), rest)
    else (65533, r1 :: r2 :: r3 :: rest)) =
      ((b - 240) * 262144 + (r1 - 128) * 4096 + (r2 - 128) * 64 + (r3 - 128), rest)
  rw [if_pos hcond]

theorem utf8_decode_encode_char (c : Nat) (h : ValidScalar c) (rest : Bytes) :
    utf8DecodeReplace (utf8EncodeChar c ++ rest) = c :: utf8DecodeReplace rest := by
  by_cases h1 : c < 128
  · have he : utf8EncodeChar c = [c] := by simp [utf8EncodeChar, h1]
    rw [he, List.cons_append, List.nil_append, utf8dr_cons, utf8Step_one c rest h1]
  · by_cases h2 : c < 2048
    · have he : utf8EncodeChar c = [192 + c / 64, 128 + c % 64] := by
        simp [utf8EncodeChar, h1, h2]
      rw [he]
      simp only [List.cons_append, List.nil_append]
      rw [utf8dr_cons, utf8Step_two _ _ _ (by omega) (by omega) (by omega)
        (by simp only [isCont]; simp; omega)]
      congr 1
      omega
    · by_cases h3 : c < 65536
      · have he : utf8EncodeChar c = [224 + c / 4096, 128 + c / 64 % 64, 128 + c % 64] := by
          simp [utf8EncodeChar, h1, h2, h3]
        rw [he]
        simp only [List.cons_append, List.nil_append]
        rw [utf8dr_cons, utf8Step_three _ _ _ _ (by omega) (by omega) (by omega) (by omega)
          (by simp only [isCont]; simp; omega) (by simp only [isCont]; simp; omega)
          (by omega)
          (by
            intro hcc
            have h13 : c / 4096 = 13 := by omega
            rcases h with hs | ⟨hs1, hs2⟩
            · omega
            · omega)]
        congr 1
        omega
      · have h4 : c < 1114112 := by
          rcases h with hs | ⟨hs1, hs2⟩
          · omega
          · omega
        have he : utf8EncodeChar c =
            [240 + c / 262144, 128 + c / 4096 % 64, 128 + c / 64 % 64, 128 + c % 64] := by
          simp [utf8EncodeChar, h1, h2, h3]
        rw [he]
        simp only [List.cons_append, List.nil_append]
        rw [utf8dr_cons, utf8Step_four _ _ _ _ _ (by omega) (by omega) (by omega) (by omega)
          (by omega) (by simp only [isCont]; simp; omega) (by simp only [isCont]; simp; omega)
          (by simp only [isCont]; simp; omega) (by omega) (by omega)]
        congr 1
        omega

/-- Decoding an encoding of scalar values is the identity (`'replace'` never
fires on valid UTF-8). -/
theorem utf8_roundtrip (s : List Nat) (h : ∀ c ∈ s, ValidScalar c) :
    utf8DecodeReplace (utf8Encode s) = s := by
  induction s with
  | nil => exact utf8dr_nil
  | cons c cs ih =>
    have : utf8Encode (c :: cs) = utf8EncodeChar c ++ utf8Encode cs := by
      simp [utf8Encode]
    rw [this, utf8_decode_encode_char c (h c (by simp)) (utf8Encode cs),
      ih (fun x hx => h x (by simp [hx]))]

/-! ### Byte-level helpers for the encoded box layout -/

/-- The four big-endian bytes of a 32-bit value. -/
def to4 (n : Nat) : Bytes := [n / 16777216, n / 65536 % 256, n / 256 % 256, n % 256]

theorem to_uint_be_eq (n : Nat) (h : n < 4294967296) : to_uint_be n = .ok (to4 n) := by
  simp [to_uint_be, to4, h]

theorem to4_length (n : Nat) : (to4 n).length = 4 := rfl

theorem beVal_to4 (n : Nat) (h : n < 4294967296) : beVal (to4 n) = n := by
  simp [beVal, to4]
  omega

theorem take_app (X Y : Bytes) (n : Nat) (h : X.length = n) : (X ++ Y).take n = X := by
  subst h
  simp

theorem drop_app (X Y : Bytes) (n : Nat) (h : X.length = n) : (X ++ Y).drop n = Y := by
  subst h
  simp

theorem splitFirst_eq (sep : Nat) : ∀ (l a r : Bytes), splitFirst sep l = some (a, r) →
    l = a ++ [sep] ++ r ∧ sep ∉ a := by
  intro l
  induction l with
  | nil => intro a r h; simp [splitFirst] at h
  | cons x xs ih =>
    intro a r h
    simp only [splitFirst] at h
    by_cases hx : x = sep
    · simp only [if_pos hx] at h
      injection h with h'
      injection h' with h1 h2
      subst hx h2
      rw [← h1]
      exact ⟨by simp, by simp⟩
    · simp only [if_neg hx] at h
      cases hs : splitFirst sep xs with
      | none => rw [hs] at h; simp at h
      | some p =>
        rw [hs] at h
        obtain ⟨pa, pr⟩ := p
        injection h with h'
        injection h' with h1 h2
        subst h2
        obtain ⟨he, hm⟩ := ih pa pr hs
        rw [← h1]
        constructor
        · simp [he]
        · simp only [List.mem_cons]
          rintro (hc | hc)
          · exact hx hc.symm
          · exact hm hc

theorem splitColon2_eq (k a b c : Bytes) (h : splitColon2 k = .ok (a, b, c)) :
    k = a ++ [58] ++ b ++ [58] ++ c ∧ (58 : Nat) ∉ a ∧ (58 : Nat) ∉ b := by
  simp only [splitColon2] at h
  split at h
  · exact Except.noConfusion h
  · split at h
    · exact Except.noConfusion h
    · rename_i x pa pr h1 y qa qr h2
      simp only [Except.ok.injEq, Prod.mk.injEq] at h
      obtain ⟨ha, hb, hc⟩ := h
      rw [← ha, ← hb, ← hc]
      obtain ⟨he1, hm1⟩ := splitFirst_eq 58 k pa pr h1
      obtain ⟨he2, hm2⟩ := splitFirst_eq 58 pr qa qr h2
      subst he2
      refine ⟨?_, hm1, hm2⟩
      rw [he1]
      simp

/-- The byte layout produced by `__render_data`. -/
theorem render_data_spec (key : Bytes) (flags : Nat) (data : Bytes)
    (hf : flags < 4294967296) (hd : data.length + 24 < 4294967296) :
    render_data key flags data =
      .ok (to4 (data.length + 24) ++ (key ++ (to4 (data.length + 16) ++ (dataName ++
        (to4 flags ++ (to4 0 ++ data)))))) := by
  simp only [render_data]
  rw [to_uint_be_eq flags hf, exc_bind_ok, to_uint_be_eq 0 (by omega), exc_bind_ok]
  have hL1 : (to4 flags ++ to4 0 ++ data).length + 8 = data.length + 16 := by
    simp [to4]
  rw [hL1, to_uint_be_eq _ (by omega), exc_bind_ok]
  have hL2 : (to4 (data.length + 16) ++ dataName ++ (to4 flags ++ to4 0 ++ data)).length + 8 =
      data.length + 24 := by
    simp [to4, dataName]
  rw [hL2, to_uint_be_eq _ (by omega), exc_bind_ok]
  simp [exc_pure, List.append_assoc]

/-! ### Parsing a concatenation of well-formed leaf boxes -/

/-- A byte block that the atom reader consumes as one leaf box ending exactly
at its boundary: at least 8 bytes, a correct leading length field, and a code
that is not a container kind. -/
def GoodBox (box : Bytes) : Prop :=
  8 ≤ box.length ∧ box.length < 4294967296 ∧ beVal (box.take 4) = box.length ∧
    (box.drop 4).take 4 ∉ _CONTAINERS

/-- The atoms the reader produces for consecutive leaf boxes starting at a
given offset. -/
def chunkAtoms : Nat → List Bytes → List Atom
  | _, [] => []
  | pos, box :: rest =>
    Atom.mk pos box.length ((box.drop 4).take 4) none :: chunkAtoms (pos + box.length) rest

theorem readBytes_append (P X : Bytes) (k n : Nat) :
    readBytes (P ++ X) (P.length + k) n = readBytes X k n := by
  simp [readBytes, List.drop_append]

/-- Parsing one good leaf box at the start of `box ++ R`. -/
theorem parseAtom_leafbox (fuel : Nat) (P box R : Bytes) (h : GoodBox box) :
    parseAtom fuel (P ++ (box ++ R)) P.length =
      .ok (Atom.mk P.length box.length ((box.drop 4).take 4) none, P.length + box.length) := by
  obtain ⟨hb8, hb32, hbval, hbname⟩ := h
  have hread0 : readBytes (P ++ (box ++ R)) P.length 4 = box.take 4 := by
    have := readBytes_append P (box ++ R) 0 4
    simp only [Nat.add_zero] at this
    rw [this]
    simp only [readBytes, List.drop_zero]
    exact List.take_append_of_le_length (by omega)
  have hlen : u32at (P ++ (box ++ R)) P.length = box.length := by
    rw [u32at, hread0, hbval]
  have hname : readBytes (P ++ (box ++ R)) (P.length + 4) 4 = (box.drop 4).take 4 := by
    rw [readBytes_append]
    simp only [readBytes]
    rw [List.drop_append_of_le_length (by omega)]
    exact List.take_append_of_le_length (by simp; omega)
  simp only [parseAtom]
  rw [if_pos (by simp; omega), hlen, hname, if_neg (by omega), if_neg hbname]

/-- The child loop consumes a concatenation of good leaf boxes exactly,
producing their atoms in order (`fuel` exceeding the box count suffices). -/
theorem parseC_goodboxes : ∀ (boxes : List Bytes) (P : Bytes) (fuel : Nat),
    (∀ box ∈ boxes, GoodBox box) → boxes.length < fuel →
    parseC fuel (P ++ boxes.flatten) P.length (P.length + boxes.flatten.length) =
      .ok (chunkAtoms P.length boxes, P.length + boxes.flatten.length) := by
  intro boxes
  induction boxes with
  | nil =>
    intro P fuel _ hf
    obtain ⟨f, rfl⟩ : ∃ f, fuel = f + 1 := ⟨fuel - 1, by omega⟩
    rw [parseC_succ]
    simp [chunkAtoms]
  | cons box rest ih =>
    intro P fuel hgood hf
    obtain ⟨f, rfl⟩ : ∃ f, fuel = f + 1 := ⟨fuel - 1, by omega⟩
    have hb := hgood box (by simp)
    have hb8 : 8 ≤ box.length := hb.1
    have hflat : (box :: rest).flatten = box ++ rest.flatten := by simp
    rw [hflat]
    have hsum : P.length + (box ++ rest.flatten).length =
        P.length + box.length + rest.flatten.length := by
      simp
      omega
    rw [hsum, parseC_succ]
    rw [if_pos (show P.length < P.length + box.length + rest.flatten.length by omega)]
    rw [parseAtom_leafbox f P box rest.flatten hb]
    have hrec := ih (P ++ box) f (fun bx hbx => hgood bx (by simp [hbx]))
      (by simp at hf ⊢; omega)
    rw [show (P ++ box) ++ rest.flatten = P ++ (box ++ rest.flatten) from by simp] at hrec
    rw [show (P ++ box).length = P.length + box.length from by simp] at hrec
    simp only [hrec]
    simp [chunkAtoms]

/-- Payload extraction for a good leaf box: `read(length - 8)` from
`offset + 8` returns exactly the box bytes after the header. -/
theorem payload_extract (P box R : Bytes) (h8 : 8 ≤ box.length) :
    pyReadAt (P ++ (box ++ R)) (P.length + 8) ((box.length : Int) - 8) = box.drop 8 := by
  simp only [pyReadAt]
  rw [if_neg (by omega)]
  have hdrop : (P ++ (box ++ R)).drop (P.length + 8) = box.drop 8 ++ R := by
    rw [List.drop_append]
    exact List.drop_append_of_le_length h8
  rw [hdrop]
  have htn : ((box.length : Int) - 8).toNat = (box.drop 8).length := by
    simp
    omega
  rw [htn, List.take_append_of_le_length (le_refl _), List.take_length]

/-! ### Well-typed tag mappings -/

/-- The codes with dedicated handlers in the dispatch table `M4ATags.atoms`. -/
def specialKeys : List Bytes := [dashK, trknK, diskK, gnreK, tmpoK, cpilK, covrK]

/-- The free-form key shape check: splitting on the first two colons yields
the box code `----`, with room in the 32-bit length fields. -/
def freeformOK (k : Bytes) (d : Bytes) : Bool :=
  match splitColon2 k with
  | .ok (dm, mean, nm) =>
    dm = dashK ∧ mean.length + nm.length + d.length + 48 < 4294967296
  | .error _ => false

/-- A tag entry is well typed for its key's kind: text entries carry scalar
codepoints under a plain (non-special, non-container) 4-byte code, tempo an
unsigned 16-bit value under `tmpo`, the compilation flag a boolean under
`cpil`, cover art a byte string under `covr`, and free-form entries a byte
string under a composite `----:mean:name` key; sizes fit the 32-bit length
fields and byte strings hold byte values.  Pair values are excluded: their
renderer always raises (see `render_pair_raises`). -/
def WTEntry : Bytes × TagValue → Prop
  | (k, .text s) => k.length = 4 ∧ (∀ x ∈ k, x < 256) ∧ k ∉ _CONTAINERS ∧
      k ∉ specialKeys ∧ (∀ c ∈ s, ValidScalar c) ∧
      (utf8Encode s).length + 24 < 4294967296
  | (_, .pair _ _) => False
  | (k, .num n) => k = tmpoK ∧ n < 65536
  | (k, .bool _) => k = cpilK
  | (k, .bytes d) =>
      (k = covrK ∧ (∀ x ∈ d, x < 256) ∧ d.length + 24 < 4294967296) ∨
      ((∀ x ∈ k, x < 256) ∧ (∀ x ∈ d, x < 256) ∧ freeformOK k d = true)

instance WTEntry_dec : ∀ e : Bytes × TagValue, Decidable (WTEntry e)
  | (k, .text s) => by unfold WTEntry; infer_instance
  | (k, .pair a b) => by unfold WTEntry; infer_instance
  | (k, .num n) => by unfold WTEntry; infer_instance
  | (k, .bool v) => by unfold WTEntry; infer_instance
  | (k, .bytes d) => by unfold WTEntry; infer_instance

/-- An entry contributes a box to the output unless it is the compilation
flag set to false, which renders as the empty byte string. -/
def keepEntry (e : Bytes × TagValue) : Bool :=
  if e.1 = cpilK ∧ e.2 = TagValue.bool false then false else true

/-- A well-typed mapping: distinct keys, each entry well typed. -/
def WTNP (m : TagMap) : Prop := (m.map Prod.fst).Nodup ∧ ∀ e ∈ m, WTEntry e

instance WTNP_dec (m : TagMap) : Decidable (WTNP m) := by
  unfold WTNP
  infer_instance

theorem mapSet_fresh (m : TagMap) (k : Bytes) (v : TagValue) (h : hasKey m k = false) :
    mapSet m k v = m ++ [(k, v)] := by
  simp only [mapSet]
  rw [show (m.any fun e => e.1 = k) = hasKey m k from rfl, h]
  simp

theorem drop_app8 (X Y R : Bytes) (hx : X.length = 4) (hy : Y.length = 4) :
    (X ++ (Y ++ R)).drop 8 = R := by
  have h8 : (8 : Nat) = X.length + 4 := by omega
  rw [h8, @List.drop_append _ X (Y ++ R) 4]
  exact drop_app Y R 4 hy

theorem drop_app12 (X Y Z R : Bytes) (hx : X.length = 4) (hy : Y.length = 4)
    (hz : Z.length = 4) : (X ++ (Y ++ (Z ++ R))).drop 12 = R := by
  have h12 : (12 : Nat) = X.length + 8 := by omega
  rw [h12, @List.drop_append _ X (Y ++ (Z ++ R)) 8]
  exact drop_app8 Y Z R hy hz

theorem drop_app16 (W X Y Z R : Bytes) (hw : W.length = 4) (hx : X.length = 4)
    (hy : Y.length = 4) (hz : Z.length = 4) :
    (W ++ (X ++ (Y ++ (Z ++ R)))).drop 16 = R := by
  have h16 : (16 : Nat) = W.length + 12 := by omega
  rw [h16, @List.drop_append _ W (X ++ (Y ++ (Z ++ R))) 12]
  exact drop_app12 X Y Z R hx hy hz

theorem sliceBytes_all (p : Bytes) (i j : Nat) (h : p.length ≤ j) :
    sliceBytes p i j = p.drop i := by
  simp [sliceBytes, List.take_of_length_le h]

/-! ### Per-kind encode/decode lemmas -/

/-- The byte block `__render_data` produces. -/
def envBox (key : Bytes) (flags : Nat) (data : Bytes) : Bytes :=
  to4 (data.length + 24) ++ (key ++ (to4 (data.length + 16) ++ (dataName ++
    (to4 flags ++ (to4 0 ++ data)))))

theorem render_data_envBox (key : Bytes) (flags : Nat) (data : Bytes)
    (hf : flags < 4294967296) (hd : data.length + 24 < 4294967296) :
    render_data key flags data = .ok (envBox key flags data) :=
  render_data_spec key flags data hf hd

theorem envBox_length (key : Bytes) (flags : Nat) (data : Bytes) (hk : key.length = 4) :
    (envBox key flags data).length = data.length + 24 := by
  simp [envBox, to4, dataName, hk]
  omega

theorem envBox_take4 (key : Bytes) (flags : Nat) (data : Bytes) :
    (envBox key flags data).take 4 = to4 (data.length + 24) :=
  take_app _ _ 4 (to4_length _)

theorem envBox_name (key : Bytes) (flags : Nat) (data : Bytes) (hk : key.length = 4) :
    ((envBox key flags data).drop 4).take 4 = key := by
  rw [envBox, drop_app _ _ 4 (to4_length _), take_app _ _ 4 hk]

theorem envBox_payload (key : Bytes) (flags : Nat) (data : Bytes) (hk : key.length = 4) :
    (envBox key flags data).drop 8 =
      to4 (data.length + 16) ++ (dataName ++ (to4 flags ++ (to4 0 ++ data))) :=
  drop_app8 _ _ _ (to4_length _) hk

theorem envBox_payload_length (key : Bytes) (flags : Nat) (data : Bytes)
    (hk : key.length = 4) : ((envBox key flags data).drop 8).length = data.length + 16 := by
  rw [envBox_payload key flags data hk]
  simp [to4, dataName]

theorem envBox_payload_drop16 (key : Bytes) (flags : Nat) (data : Bytes)
    (hk : key.length = 4) : ((envBox key flags data).drop 8).drop 16 = data := by
  rw [envBox_payload key flags data hk]
  exact drop_app16 _ _ _ _ _ (to4_length _) rfl (to4_length _) (to4_length _)

theorem envBox_good (key : Bytes) (flags : Nat) (data : Bytes) (hk : key.length = 4)
    (hc : key ∉ _CONTAINERS) (hd : data.length + 24 < 4294967296) :
    GoodBox (envBox key flags data) := by
  refine ⟨?_, ?_, ?_, ?_⟩
  · rw [envBox_length key flags data hk]
    omega
  · rw [envBox_length key flags data hk]
    exact hd
  · rw [envBox_take4, beVal_to4 _ hd, envBox_length key flags data hk]
  · rw [envBox_name key flags data hk]
    exact hc

theorem not_special (k : Bytes) (h : k ∉ specialKeys) :
    k ≠ dashK ∧ k ≠ trknK ∧ k ≠ diskK ∧ k ≠ gnreK ∧ k ≠ tmpoK ∧ k ≠ cpilK ∧ k ≠ covrK := by
  simp [specialKeys] at h
  tauto

/-- Rendering a well-typed text entry. -/
theorem renderEntry_text (k : Bytes) (s : List Nat) (h : WTEntry (k, .text s)) :
    renderEntry (k, .text s) = .ok (envBox k 1 (utf8Encode s)) := by
  obtain ⟨hk4, hbyte, hcont, hspec, hval, hbound⟩ := h
  obtain ⟨hd, ht, hdi, hg, htm, hcp, hcv⟩ := not_special k hspec
  have hcode : k.take 4 = k := by
    rw [← hk4]
    exact List.take_length k
  simp only [renderEntry, hcode, if_neg hd, if_neg (by tauto : ¬ (k = trknK ∨ k = diskK)),
    if_neg hg, if_neg htm, if_neg hcp, if_neg hcv]
  rw [render_text, render_data_envBox _ _ _ (by omega) hbound]

/-- Decoding the rendered text box appends the original entry. -/
theorem parseEntry_text (k : Bytes) (s : List Nat) (acc : TagMap)
    (h : WTEntry (k, .text s)) (hacc : hasKey acc k = false) :
    parseEntry acc k ((envBox k 1 (utf8Encode s)).drop 8) = .ok (acc ++ [(k, .text s)]) := by
  obtain ⟨hk4, hbyte, hcont, hspec, hval, hbound⟩ := h
  obtain ⟨hd, ht, hdi, hg, htm, hcp, hcv⟩ := not_special k hspec
  simp only [parseEntry, if_neg hd, if_neg (by tauto : ¬ (k = trknK ∨ k = diskK)),
    if_neg hg, if_neg htm, if_neg hcp, if_neg hcv, parse_text]
  rw [envBox_payload_drop16 _ _ _ hk4, utf8_roundtrip s hval, mapSet_fresh acc k _ hacc]

/-- Rendering a well-typed tempo entry. -/
theorem renderEntry_tempo (n : Nat) (hn : n < 65536) :
    renderEntry (tmpoK, .num n) = .ok (envBox tmpoK 21 [n / 256, n % 256]) := by
  have h1 : to_ushort_be n = .ok [n / 256, n % 256] := by simp [to_ushort_be, hn]
  simp only [renderEntry]
  rw [show tmpoK.take 4 = tmpoK from rfl]
  rw [if_neg (by decide : ¬ (tmpoK = dashK)),
    if_neg (by decide : ¬ (tmpoK = trknK ∨ tmpoK = diskK)),
    if_neg (by decide : ¬ (tmpoK = gnreK)), if_pos rfl]
  simp only [render_tempo, h1, exc_bind_ok]
  exact render_data_envBox tmpoK 21 [n / 256, n % 256] (by omega) (by simp)

/-- Decoding the rendered tempo box appends the original entry. -/
theorem parseEntry_tempo (n : Nat) (acc : TagMap) (_hn : n < 65536)
    (hacc : hasKey acc tmpoK = false) :
    parseEntry acc tmpoK ((envBox tmpoK 21 [n / 256, n % 256]).drop 8) =
      .ok (acc ++ [(tmpoK, .num n)]) := by
  have hpl : ((envBox tmpoK 21 [n / 256, n % 256]).drop 8).length = 18 := by
    rw [envBox_payload_length tmpoK 21 [n / 256, n % 256] rfl]
    simp
  have hsl : sliceBytes ((envBox tmpoK 21 [n / 256, n % 256]).drop 8) 16 18 =
      [n / 256, n % 256] := by
    rw [sliceBytes_all _ _ _ (by omega), envBox_payload_drop16 tmpoK 21 [n / 256, n % 256] rfl]
  simp only [parseEntry, if_neg (by decide : ¬ (tmpoK = dashK)),
    if_neg (by decide : ¬ (tmpoK = trknK ∨ tmpoK = diskK)),
    if_neg (by decide : ¬ (tmpoK = gnreK))]
  rw [if_pos trivial]
  simp only [parse_tempo, hsl, short_be]
  rw [if_pos (show ([n / 256, n % 256] : Bytes).length = 2 by simp)]
  simp only [exc_bind_ok, exc_pure]
  have hval : beVal [n / 256, n % 256] = n := by
    simp [beVal]
    omega
  rw [hval, mapSet_fresh acc tmpoK _ hacc]

/-- Rendering the compilation flag. -/
theorem renderEntry_cpil_true :
    renderEntry (cpilK, .bool true) = .ok (envBox cpilK 21 [1]) := rfl

theorem renderEntry_cpil_false : renderEntry (cpilK, .bool false) = .ok [] := rfl

/-- Decoding the rendered compilation box appends the original entry. -/
theorem parseEntry_cpil_true (acc : TagMap) (hacc : hasKey acc cpilK = false) :
    parseEntry acc cpilK ((envBox cpilK 21 [1]).drop 8) = .ok (acc ++ [(cpilK, .bool true)]) := by
  have hpl : ((envBox cpilK 21 [1]).drop 8).length = 17 := by
    rw [envBox_payload_length cpilK 21 [1] rfl]
    simp
  have hsl : sliceBytes ((envBox cpilK 21 [1]).drop 8) 16 17 = [1] := by
    rw [sliceBytes_all _ _ _ (by omega), envBox_payload_drop16 cpilK 21 [1] rfl]
  simp only [parseEntry, if_neg (by decide : ¬ (cpilK = dashK)),
    if_neg (by decide : ¬ (cpilK = trknK ∨ cpilK = diskK)),
    if_neg (by decide : ¬ (cpilK = gnreK)), if_neg (by decide : ¬ (cpilK = tmpoK))]
  rw [if_pos trivial]
  simp only [parse_compilation, hsl]
  rw [mapSet_fresh acc cpilK _ hacc]
  simp

/-- Rendering a well-typed cover entry. -/
theorem renderEntry_covr (d : Bytes) (hd : d.length + 24 < 4294967296) :
    renderEntry (covrK, .bytes d) = .ok (envBox covrK 13 d) := by
  simp only [renderEntry]
  rw [show covrK.take 4 = covrK from rfl]
  rw [if_neg (by decide : ¬ (covrK = dashK)),
    if_neg (by decide : ¬ (covrK = trknK ∨ covrK = diskK)),
    if_neg (by decide : ¬ (covrK = gnreK)), if_neg (by decide : ¬ (covrK = tmpoK)),
    if_neg (by decide : ¬ (covrK = cpilK)), if_pos rfl]
  exact render_data_envBox covrK 13 d (by omega) hd

/-- Decoding the rendered cover box appends the original entry. -/
theorem parseEntry_covr (d : Bytes) (acc : TagMap) (hacc : hasKey acc covrK = false) :
    parseEntry acc covrK ((envBox covrK 13 d).drop 8) = .ok (acc ++ [(covrK, .bytes d)]) := by
  simp only [parseEntry, if_neg (by decide : ¬ (covrK = dashK)),
    if_neg (by decide : ¬ (covrK = trknK ∨ covrK = diskK)),
    if_neg (by decide : ¬ (covrK = gnreK)), if_neg (by decide : ¬ (covrK = tmpoK)),
    if_neg (by decide : ¬ (covrK = cpilK))]
  rw [if_pos trivial]
  simp only [parse_cover]
  rw [envBox_payload_drop16 covrK 13 d rfl, mapSet_fresh acc covrK _ hacc]

/-- The byte block `__render_freeform` produces. -/
def ffBox (mean nm value : Bytes) : Bytes :=
  to4 (mean.length + nm.length + value.length + 48) ++ (dashK ++ (to4 (mean.length + 12) ++ (meanName ++ (to4 0 ++ (mean ++ (to4 (nm.length + 12) ++ (nameName ++ (to4 0 ++ (nm ++ (to4 (value.length + 16) ++ (dataName ++ (to4 1 ++ (to4 0 ++ value)))))))))))))

theorem render_freeform_spec (k mean nm value : Bytes)
    (hsp : splitColon2 k = .ok (dashK, mean, nm))
    (hb : mean.length + nm.length + value.length + 48 < 4294967296) :
    render_freeform k value = .ok (ffBox mean nm value) := by
  have b0 : (0 : Nat) < 4294967296 := by omega
  have b1 : mean.length + 12 < 4294967296 := by omega
  have b2 : nm.length + 12 < 4294967296 := by omega
  have b3 : value.length + 16 < 4294967296 := by omega
  have b4 : (1 : Nat) < 4294967296 := by omega
  simp only [render_freeform, hsp, exc_bind_ok]
  simp only [to_uint_be_eq 0 b0, to_uint_be_eq _ b1, to_uint_be_eq _ b2, to_uint_be_eq _ b3,
    to_uint_be_eq 1 b4, exc_bind_ok]
  have hfl : ((to4 (mean.length + 12) ++ meanName ++ to4 0 ++ mean) ++
      (to4 (nm.length + 12) ++ nameName ++ to4 0 ++ nm) ++
      (to4 (value.length + 16) ++ dataName ++ to4 1 ++ to4 0 ++ value)).length + 8 =
      mean.length + nm.length + value.length + 48 := by
    simp [to4, dataName, meanName, nameName]
    omega
  rw [hfl, to_uint_be_eq _ hb, exc_bind_ok, exc_pure]
  simp [ffBox, List.append_assoc]

theorem ffBox_name (mean nm value : Bytes) : ((ffBox mean nm value).drop 4).take 4 = dashK := by
  rw [ffBox, drop_app _ _ 4 (to4_length _)]
  exact take_app dashK _ 4 (by decide)

theorem ffBox_length (mean nm value : Bytes) :
    (ffBox mean nm value).length = mean.length + nm.length + value.length + 48 := by
  simp [ffBox, to4, dashK, dataName, meanName, nameName]
  omega

theorem ffBox_good (mean nm value : Bytes)
    (hb : mean.length + nm.length + value.length + 48 < 4294967296) :
    GoodBox (ffBox mean nm value) := by
  refine ⟨?_, ?_, ?_, ?_⟩
  · rw [ffBox_length]
    omega
  · rw [ffBox_length]
    exact hb
  · have hT : beVal ((ffBox mean nm value).take 4) =
        mean.length + nm.length + value.length + 48 := by
      rw [ffBox, take_app _ _ 4 (to4_length _), beVal_to4 _ hb]
    rw [hT, ffBox_length]
  · rw [ffBox_name]
    decide

theorem ffBox_payload (mean nm value : Bytes) :
    (ffBox mean nm value).drop 8 =
      to4 (mean.length + 12) ++ (meanName ++ (to4 0 ++ (mean ++ (to4 (nm.length + 12) ++ (nameName ++ (to4 0 ++ (nm ++ (to4 (value.length + 16) ++ (dataName ++ (to4 1 ++ (to4 0 ++ value))))))))))) :=
  drop_app8 _ _ _ (to4_length _) rfl

theorem uint_be_to4 (n : Nat) (h : n < 4294967296) : uint_be (to4 n) = .ok n := by
  simp [uint_be, to4_length, beVal_to4 n h]

theorem pyRead_exact (X R : Bytes) (n : Int) (h : n = (X.length : Int)) :
    pyRead (X ++ R) n = (X, R) := by
  simp only [pyRead]
  rw [if_neg (by omega)]
  have ht : n.toNat = X.length := by omega
  rw [ht, take_app X R _ rfl, drop_app X R _ rfl]

theorem pyRead_all (X : Bytes) (n : Int) (h : n = (X.length : Int)) :
    pyRead X n = (X, []) := by
  simp only [pyRead]
  rw [if_neg (by omega)]
  have ht : n.toNat = X.length := by omega
  rw [ht, List.take_length, List.drop_length]

/-- Decoding the rendered free-form box appends the original entry. -/
theorem parseEntry_freeform (k mean nm value : Bytes) (acc : TagMap)
    (hsp : splitColon2 k = .ok (dashK, mean, nm))
    (hb : mean.length + nm.length + value.length + 48 < 4294967296)
    (hacc : hasKey acc k = false) :
    parseEntry acc dashK ((ffBox mean nm value).drop 8) = .ok (acc ++ [(k, .bytes value)]) := by
  obtain ⟨hkeq, hdm, hmm⟩ := splitColon2_eq k dashK mean nm hsp
  have s1 : (to4 (mean.length + 12) ++ (meanName ++ (to4 0 ++ (mean ++
      (to4 (nm.length + 12) ++ (nameName ++ (to4 0 ++ (nm ++ (to4 (value.length + 16) ++ (dataName ++ (to4 1 ++ (to4 0 ++ value)))))))))))).take 4 = to4 (mean.length + 12) := take_app _ _ 4 (to4_length _)
  have s2 : uint_be (to4 (mean.length + 12)) = .ok (mean.length + 12) :=
    uint_be_to4 _ (by omega)
  have s3 : (to4 (mean.length + 12) ++ (meanName ++ (to4 0 ++ (mean ++
      (to4 (nm.length + 12) ++ (nameName ++ (to4 0 ++ (nm ++ (to4 (value.length + 16) ++ (dataName ++ (to4 1 ++ (to4 0 ++ value)))))))))))).drop 4 = meanName ++ (to4 0 ++ (mean ++ (to4 (nm.length + 12) ++ (nameName ++ (to4 0 ++ (nm ++ (to4 (value.length + 16) ++ (dataName ++ (to4 1 ++ (to4 0 ++ value)))))))))) :=
    drop_app _ _ 4 (to4_length _)
  have s4 : meanName ++ (to4 0 ++ (mean ++ (to4 (nm.length + 12) ++ (nameName ++ (to4 0 ++ (nm ++ (to4 (value.length + 16) ++ (dataName ++ (to4 1 ++ (to4 0 ++ value)))))))))) =
      (meanName ++ (to4 0 ++ mean)) ++ (to4 (nm.length + 12) ++ (nameName ++ (to4 0 ++ (nm ++ (to4 (value.length + 16) ++ (dataName ++ (to4 1 ++ (to4 0 ++ value)))))))) := by
    simp
  have s5 : pyRead ((meanName ++ (to4 0 ++ mean)) ++ (to4 (nm.length + 12) ++ (nameName ++ (to4 0 ++ (nm ++ (to4 (value.length + 16) ++ (dataName ++ (to4 1 ++ (to4 0 ++ value)))))))))
      (((mean.length + 12 : Nat) : Int) - 4) = (meanName ++ (to4 0 ++ mean), to4 (nm.length + 12) ++ (nameName ++ (to4 0 ++ (nm ++ (to4 (value.length + 16) ++ (dataName ++ (to4 1 ++ (to4 0 ++ value)))))))) := by
    apply pyRead_exact
    simp [meanName, to4]
    omega
  have s6 : (meanName ++ (to4 0 ++ mean)).drop 8 = mean :=
    drop_app8 _ _ _ rfl (to4_length _)
  have s7 : (to4 (nm.length + 12) ++ (nameName ++ (to4 0 ++ (nm ++ (to4 (value.length + 16) ++ (dataName ++ (to4 1 ++ (to4 0 ++ value)))))))).take 4 = to4 (nm.length + 12) := take_app _ _ 4 (to4_length _)
  have s8 : uint_be (to4 (nm.length + 12)) = .ok (nm.length + 12) :=
    uint_be_to4 _ (by omega)
  have s9 : (to4 (nm.length + 12) ++ (nameName ++ (to4 0 ++ (nm ++ (to4 (value.length + 16) ++ (dataName ++ (to4 1 ++ (to4 0 ++ value)))))))).drop 4 = nameName ++ (to4 0 ++ (nm ++ (to4 (value.length + 16) ++ (dataName ++ (to4 1 ++ (to4 0 ++ value)))))) :=
    drop_app _ _ 4 (to4_length _)
  have s10 : nameName ++ (to4 0 ++ (nm ++ (to4 (value.length + 16) ++ (dataName ++ (to4 1 ++ (to4 0 ++ value)))))) = (nameName ++ (to4 0 ++ nm)) ++ (to4 (value.length + 16) ++ (dataName ++ (to4 1 ++ (to4 0 ++ value)))) := by
    simp
  have s11 : pyRead ((nameName ++ (to4 0 ++ nm)) ++ (to4 (value.length + 16) ++ (dataName ++ (to4 1 ++ (to4 0 ++ value)))))
      (((nm.length + 12 : Nat) : Int) - 4) = (nameName ++ (to4 0 ++ nm), to4 (value.length + 16) ++ (dataName ++ (to4 1 ++ (to4 0 ++ value)))) := by
    apply pyRead_exact
    simp [nameName, to4]
    omega
  have s12 : (nameName ++ (to4 0 ++ nm)).drop 8 = nm :=
    drop_app8 _ _ _ rfl (to4_length _)
  have s13 : (to4 (value.length + 16) ++ (dataName ++ (to4 1 ++ (to4 0 ++ value)))).take 4 = to4 (value.length + 16) := take_app _ _ 4 (to4_length _)
  have s14 : uint_be (to4 (value.length + 16)) = .ok (value.length + 16) :=
    uint_be_to4 _ (by omega)
  have s15 : (to4 (value.length + 16) ++ (dataName ++ (to4 1 ++ (to4 0 ++ value)))).drop 4 = dataName ++ (to4 1 ++ (to4 0 ++ value)) :=
    drop_app _ _ 4 (to4_length _)
  have s16 : pyRead (dataName ++ (to4 1 ++ (to4 0 ++ value)))
      (((value.length + 16 : Nat) : Int) - 4) = (dataName ++ (to4 1 ++ (to4 0 ++ value)), []) := by
    apply pyRead_all
    simp [dataName, to4]
    omega
  have s17 : (dataName ++ (to4 1 ++ (to4 0 ++ value))).drop 12 = value :=
    drop_app12 _ _ _ _ rfl (to4_length _) (to4_length _)
  rw [parseEntry, if_pos (rfl : dashK = dashK), ffBox_payload]
  simp only [parse_freeform]
  rw [s1, s2]
  simp only [exc_bind_ok]
  rw [s3, s4, s5]
  simp only [s6, s7, s8]
  simp only [exc_bind_ok]
  rw [s9, s10, s11]
  simp only [s12, s13, s14]
  simp only [exc_bind_ok]
  rw [s15, s16]
  simp only [s17, exc_pure]
  rw [← hkeq]
  rw [mapSet_fresh acc k _ hacc]

/-- Rendering a well-typed free-form entry. -/
theorem renderEntry_freeform (k mean nm value : Bytes)
    (hsp : splitColon2 k = .ok (dashK, mean, nm))
    (hb : mean.length + nm.length + value.length + 48 < 4294967296) :
    renderEntry (k, .bytes value) = .ok (ffBox mean nm value) := by
  obtain ⟨hkeq, h1, h2⟩ := splitColon2_eq k dashK mean nm hsp
  have hcode : k.take 4 = dashK := by
    rw [show k = dashK ++ ([58] ++ (mean ++ ([58] ++ nm))) from by rw [hkeq]; simp]
    exact take_app dashK _ 4 (by decide)
  simp only [renderEntry, hcode]
  rw [if_pos trivial]
  exact render_freeform_spec k mean nm value hsp hb

/-- Combined per-entry fact: a well-typed entry either renders to the empty
byte string (the false compilation flag, which decoding simply skips) or to a
good leaf box whose decoding appends exactly the original entry to any
accumulator not already holding its key. -/
theorem renderEntry_spec (e : Bytes × TagValue) (h : WTEntry e) :
    (keepEntry e = false ∧ renderEntry e = .ok []) ∨
    (keepEntry e = true ∧ ∃ box, renderEntry e = .ok box ∧ GoodBox box ∧
      ∀ acc : TagMap, hasKey acc e.1 = false →
        parseEntry acc ((box.drop 4).take 4) (box.drop 8) = .ok (acc ++ [e])) := by
  obtain ⟨k, v⟩ := e
  cases v with
  | text s =>
    right
    obtain ⟨hk4, hbyte, hcont, hspec, hval, hbound⟩ := id h
    refine ⟨by simp [keepEntry], envBox k 1 (utf8Encode s), renderEntry_text k s h, ?_, ?_⟩
    · exact envBox_good k 1 _ hk4 hcont hbound
    · intro acc hacc
      rw [envBox_name k 1 _ hk4]
      exact parseEntry_text k s acc h hacc
  | pair a b => exact h.elim
  | num n =>
    obtain ⟨hk, hn⟩ := h
    subst hk
    right
    refine ⟨by simp [keepEntry], envBox tmpoK 21 [n / 256, n % 256], renderEntry_tempo n hn,
      envBox_good tmpoK 21 _ rfl (by decide) (by simp), ?_⟩
    intro acc hacc
    rw [envBox_name tmpoK 21 _ rfl]
    exact parseEntry_tempo n acc hn hacc
  | bool bv =>
    have hk : k = cpilK := h
    subst hk
    cases bv with
    | false => exact Or.inl ⟨by simp [keepEntry], renderEntry_cpil_false⟩
    | true =>
      right
      refine ⟨by simp [keepEntry], envBox cpilK 21 [1], renderEntry_cpil_true,
        envBox_good cpilK 21 [1] rfl (by decide) (by simp), ?_⟩
      intro acc hacc
      rw [envBox_name cpilK 21 [1] rfl]
      exact parseEntry_cpil_true acc hacc
  | bytes d =>
    right
    rcases h with ⟨hk, hbyte, hbound⟩ | ⟨hkb, hdb, hff⟩
    · subst hk
      refine ⟨by simp [keepEntry], envBox covrK 13 d, renderEntry_covr d hbound,
        envBox_good covrK 13 d rfl (by decide) hbound, ?_⟩
      intro acc hacc
      rw [envBox_name covrK 13 d rfl]
      exact parseEntry_covr d acc hacc
    · simp only [freeformOK] at hff
      split at hff
      · rename_i dm mean nm hspeq
        obtain ⟨hdm, hbound⟩ := of_decide_eq_true hff
        subst hdm
        refine ⟨by simp [keepEntry], ffBox mean nm d, renderEntry_freeform k mean nm d hspeq hbound,
          ffBox_good mean nm d hbound, ?_⟩
        intro acc hacc
        rw [ffBox_name]
        exact parseEntry_freeform k mean nm d acc hspeq hbound hacc
      · exact absurd hff (by simp)

/-! ### The round-trip theorem -/

/-- A rendered box decodes back to its entry on any accumulator not holding
the key. -/
def boxMatches (box : Bytes) (e : Bytes × TagValue) : Prop :=
  GoodBox box ∧ ∀ acc : TagMap, hasKey acc e.1 = false →
    parseEntry acc ((box.drop 4).take 4) (box.drop 8) = .ok (acc ++ [e])

theorem render_boxes : ∀ (m : TagMap), (∀ e ∈ m, WTEntry e) →
    ∃ (results boxes : List Bytes),
      m.mapM renderEntry = .ok results ∧
      (m.filter keepEntry).mapM renderEntry = .ok boxes ∧
      results.flatten = boxes.flatten ∧
      List.Forall₂ boxMatches boxes (m.filter keepEntry) := by
  intro m
  induction m with
  | nil => exact fun _ => ⟨[], [], rfl, rfl, rfl, .nil⟩
  | cons e m' ih =>
    intro hwt
    obtain ⟨results', boxes', hmap', hfmap', hflat', hf2'⟩ :=
      ih (fun x hx => hwt x (by simp [hx]))
    rcases renderEntry_spec e (hwt e (by simp)) with ⟨hkeep, hrend⟩ |
      ⟨hkeep, box, hrend, hgood, hparse⟩
    · refine ⟨[] :: results', boxes', ?_, ?_, ?_, ?_⟩
      · rw [List.mapM_cons, hrend, exc_bind_ok, hmap', exc_bind_ok, exc_pure]
      · rw [List.filter_cons, if_neg (by simp [hkeep])]
        exact hfmap'
      · simp [hflat']
      · rw [List.filter_cons, if_neg (by simp [hkeep])]
        exact hf2'
    · refine ⟨box :: results', box :: boxes', ?_, ?_, ?_, ?_⟩
      · rw [List.mapM_cons, hrend, exc_bind_ok, hmap', exc_bind_ok, exc_pure]
      · rw [List.filter_cons, if_pos (by simp [hkeep]), List.mapM_cons, hrend, exc_bind_ok,
          hfmap', exc_bind_ok, exc_pure]
      · simp [hflat']
      · rw [List.filter_cons, if_pos (by simp [hkeep])]
        exact .cons ⟨hgood, hparse⟩ hf2'

theorem decode_fold : ∀ (boxes : List Bytes) (ents : TagMap) (P B : Bytes) (acc : TagMap),
    List.Forall₂ boxMatches boxes ents →
    B = P ++ boxes.flatten →
    (∀ e ∈ ents, hasKey acc e.1 = false) →
    (ents.map Prod.fst).Nodup →
    (chunkAtoms P.length boxes).foldlM (fun mm a => parseEntry mm a.name
      (pyReadAt B (a.offset + 8) ((a.length : Int) - 8))) acc = .ok (acc ++ ents) := by
  intro boxes
  induction boxes with
  | nil =>
    intro ents P B acc hf2 hB hacc hnd
    cases hf2
    simp [chunkAtoms]
    rfl
  | cons box boxes' ih =>
    intro ents P B acc hf2 hB hacc hnd
    cases hf2 with
    | cons hR hf2' =>
      rename_i e ents'
      obtain ⟨hgood, hparse⟩ := hR
      simp only [chunkAtoms]
      rw [List.foldlM_cons]
      have hBex : B = P ++ (box ++ boxes'.flatten) := by
        rw [hB]
        simp
      have hdata : pyReadAt B (P.length + 8) ((box.length : Int) - 8) = box.drop 8 := by
        rw [hBex]
        exact payload_extract P box boxes'.flatten hgood.1
      simp only [Atom.name, Atom.offset, Atom.length]
      rw [hdata, hparse acc (hacc e (by simp))]
      simp only [exc_bind_ok]
      have hstep : P.length + box.length = (P ++ box).length := by simp
      rw [hstep]
      have hnd' : (ents'.map Prod.fst).Nodup := by
        simp only [List.map_cons, List.nodup_cons] at hnd
        exact hnd.2
      have hhead : e.1 ∉ ents'.map Prod.fst := by
        simp only [List.map_cons, List.nodup_cons] at hnd
        exact hnd.1
      have hrec := ih ents' (P ++ box) B (acc ++ [e]) hf2'
        (by rw [hB]; simp)
        (by
          intro e' he'
          rw [hasKey_append]
          have h1 : hasKey acc e'.1 = false := hacc e' (by simp [he'])
          have h2 : e.1 ≠ e'.1 := by
            intro hc
            exact hhead (hc ▸ List.mem_map_of_mem Prod.fst he')
          simp [h1, h2])
        hnd'
      have hassoc : acc ++ [e] ++ ents' = acc ++ e :: ents' := by simp
      rw [hassoc] at hrec
      exact hrec

theorem render_of_mapM (m : TagMap) (results : List Bytes)
    (h : m.mapM renderEntry = .ok results) : m4aTagsRender m = .ok results.flatten := by
  simp only [m4aTagsRender, h, exc_bind_ok, exc_pure]

theorem boxes_le_flatten (boxes : List Bytes) (h : ∀ box ∈ boxes, 8 ≤ box.length) :
    boxes.length ≤ boxes.flatten.length := by
  induction boxes with
  | nil => simp
  | cons box boxes' ih =>
    have h8 := h box (by simp)
    have := ih (fun b hb => h b (by simp [hb]))
    simp only [List.length_cons, List.flatten_cons, List.length_append]
    omega

theorem forall2_good {boxes : List Bytes} {ents : TagMap}
    (h : List.Forall₂ boxMatches boxes ents) : ∀ box ∈ boxes, GoodBox box := by
  induction h with
  | nil => intro box hb; cases hb
  | cons hR htail ih =>
    intro box hb
    cases List.mem_cons.mp hb with
    | inl h1 => subst h1; exact hR.1
    | inr h1 => exact ih box h1

theorem splitFirst_shape (sep : Nat) (a r : Bytes) (ha : sep ∉ a) :
    splitFirst sep (a ++ [sep] ++ r) = some (a, r) := by
  induction a with
  | nil => simp [splitFirst]
  | cons x xs ih =>
    have hx : ¬ (x = sep) := fun h => ha (by simp [h])
    have ih' := ih (fun h => ha (by simp [h]))
    simp only [List.cons_append, splitFirst, if_neg hx, List.append_eq, ih', Option.map_some']

theorem splitColon2_shape (mean nm : Bytes) (hm : (58 : Nat) ∉ mean) :
    splitColon2 (dashK ++ [58] ++ mean ++ [58] ++ nm) = .ok (dashK, mean, nm) := by
  have h1 : splitFirst 58 (dashK ++ [58] ++ (mean ++ [58] ++ nm)) =
      some (dashK, mean ++ [58] ++ nm) :=
    splitFirst_shape 58 dashK _ (by decide)
  have h2 : splitFirst 58 (mean ++ [58] ++ nm) = some (mean, nm) :=
    splitFirst_shape 58 mean nm hm
  have hkey : dashK ++ [58] ++ mean ++ [58] ++ nm = dashK ++ [58] ++ (mean ++ [58] ++ nm) := by
    simp
  rw [hkey]
  simp only [splitColon2, h1, h2]

/-- C1, amended: for a well-typed tag mapping with distinct keys and no
track/disc pair values, rendering to `ilst` bytes succeeds, decoding those
bytes yields the mapping with false compilation flags dropped, and
re-rendering that decoded mapping is byte-identical to the first encoding;
a free-form entry's box carries a leading length field equal to 8 plus the
lengths of its mean, name and data sub-records, and decodes back to the
identical composite key and value.  (The claim's inclusion of pair values
fails: their renderer always raises, see the counterexample.) -/
theorem ilst_roundtrip :
    (∀ m : TagMap, WTNP m →
      ∃ bs : Bytes, m4aTagsRender m = .ok bs ∧
        decodeIlstBytes bs = .ok (m.filter keepEntry) ∧
        m4aTagsRender (m.filter keepEntry) = .ok bs) ∧
    (∀ mean nm value : Bytes, (58 : Nat) ∉ mean →
      mean.length + nm.length + value.length + 48 < 4294967296 →
      ∃ box : Bytes,
        render_freeform (dashK ++ [58] ++ mean ++ [58] ++ nm) value = .ok box ∧
        u32at box 0 = 8 + (mean.length + 12) + (nm.length + 12) + (value.length + 16) ∧
        parse_freeform [] dashK (box.drop 8) =
          .ok [(dashK ++ [58] ++ mean ++ [58] ++ nm, .bytes value)]) := by
  constructor
  · intro m hm
    obtain ⟨hnd, hwt⟩ := hm
    obtain ⟨results, boxes, hmap, hfmap, hflat, hf2⟩ := render_boxes m hwt
    have hgood : ∀ box ∈ boxes, GoodBox box := forall2_good hf2
    have hcount : boxes.length ≤ boxes.flatten.length :=
      boxes_le_flatten boxes (fun box hb => (hgood box hb).1)
    refine ⟨boxes.flatten, ?_, ?_, ?_⟩
    · rw [render_of_mapM m results hmap, hflat]
    · have hparse := parseC_goodboxes boxes [] (boxes.flatten.length + 4) hgood (by omega)
      simp only [List.nil_append, List.length_nil, Nat.zero_add] at hparse
      have hnd2 : ((m.filter keepEntry).map Prod.fst).Nodup :=
        hnd.sublist (List.Sublist.map Prod.fst (List.filter_sublist m))
      have hfold := decode_fold boxes (m.filter keepEntry) [] boxes.flatten [] hf2
        (by simp) (fun e _ => rfl) hnd2
      simp only [List.length_nil, List.nil_append] at hfold
      simp only [decodeIlstBytes, hparse, m4aTagsOfChildren]
      exact hfold
    · rw [render_of_mapM _ boxes hfmap]
  · intro mean nm value hm hb
    have hsp : splitColon2 (dashK ++ [58] ++ mean ++ [58] ++ nm) = .ok (dashK, mean, nm) :=
      splitColon2_shape mean nm hm
    refine ⟨ffBox mean nm value, render_freeform_spec _ mean nm value hsp hb, ?_, ?_⟩
    · have hval : u32at (ffBox mean nm value) 0 =
          mean.length + nm.length + value.length + 48 := by
        have ht : readBytes (ffBox mean nm value) 0 4 = (ffBox mean nm value).take 4 := by
          simp [readBytes]
        rw [u32at, ht, (ffBox_good mean nm value hb).2.2.1, ffBox_length]
      rw [hval]
      omega
    · have hp := parseEntry_freeform (dashK ++ [58] ++ mean ++ [58] ++ nm) mean nm value []
        hsp hb rfl
      unfold parseEntry at hp
      rw [if_pos rfl] at hp
      simpa using hp

/-- C1 counterexample: a mapping holding a disc pair — one of the claim's
supported kinds — does not round-trip: rendering it raises `struct.error`. -/
theorem ilst_roundtrip_cex :
    m4aTagsRender [(diskK, TagValue.pair 3 4)] = .error .structError := rfl

def c1mean : Bytes := [99, 111, 109]
def c1nm : Bytes := [110, 109]
def c1val : Bytes := [104, 105]

/-- A concrete well-typed mapping: a text tag, a false compilation flag and a
free-form entry. -/
def c1map : TagMap :=
  [([169, 110, 97, 109], .text [65, 66]), (cpilK, .bool false),
   (dashK ++ [58] ++ c1mean ++ [58] ++ c1nm, .bytes c1val)]

theorem ilst_roundtrip_witness :
    (WTNP c1map ∧
      ∃ bs : Bytes, m4aTagsRender c1map = .ok bs ∧
        decodeIlstBytes bs = .ok (c1map.filter keepEntry) ∧
        m4aTagsRender (c1map.filter keepEntry) = .ok bs) ∧
    ((58 : Nat) ∉ c1mean ∧ c1mean.length + c1nm.length + c1val.length + 48 < 4294967296 ∧
      ∃ box : Bytes,
        render_freeform (dashK ++ [58] ++ c1mean ++ [58] ++ c1nm) c1val = .ok box ∧
        u32at box 0 = 8 + (c1mean.length + 12) + (c1nm.length + 12) + (c1val.length + 16) ∧
        parse_freeform [] dashK (box.drop 8) =
          .ok [(dashK ++ [58] ++ c1mean ++ [58] ++ c1nm, .bytes c1val)]) :=
  ⟨⟨by decide, ilst_roundtrip.1 c1map (by decide)⟩,
   ⟨by decide, by decide, ilst_roundtrip.2 c1mean c1nm c1val (by decide) (by decide)⟩⟩

end M4A
